import Mathlib

/-!
# elos/svg: a verification development

Shallow embedding of the Go packages `svg` (src/svg.go) and `plot`
(src/plot/plot.go).

Conventions of the embedding.

* `float64` is modelled by `ℚ` (exact arithmetic): no rounding, no NaN, no
  infinities.  Where the source divides by a span that may be zero the model
  uses the field division of `ℚ`; statements about the quotient carry the
  hypothesis that the span is non-zero.
* Where a statement depends on the rounding of float64 the operations are
  rounded: `Plot.F64` is a float64 value, `Plot.F64.round` rounds to nearest,
  ties to even, with gradual underflow and overflow to an infinity, and
  `Plot.LinePath64` is the path of `plot.Line` computed with it.
* A Go slice is modelled by a `List`; an in-place update returns the updated
  list.  Pointer identity is not modelled, a `*T` that may be nil is an
  `Option T`.
* A run-time panic is a value of `Fault`; a function that indexes a slice
  returns `Except Fault _`.
* A `for` loop is a recursive function on a fuel counter, and reports
  `Fault.fuelExhausted` if the counter runs out while the loop guard still
  holds.  The entry point supplies the fuel.  A `range` loop over a slice is
  a recursion on the list.
* `Encode(w)` is modelled by the text the call writes to the sink `w`, in the
  order of the writes; a call that panics has the fault as its result.
* The verbs `%s`, `%q`, `%.2f` and `%f` of package `fmt` are modelled from
  their documentation; the Unicode table behind `%q` is the parameter
  `isPrint`.
-/

/-- The ways an embedded function can stop without a result. -/
inductive Fault where
  /-- Go: `panic: runtime error: index out of range`. -/
  | indexOutOfRange
  /-- Go: `panic: runtime error: invalid memory address or nil pointer dereference`. -/
  | nilDereference
  /-- The loop model was given too little fuel (not a behaviour of the source). -/
  | fuelExhausted
  deriving DecidableEq, Repr

-- Equality of two results is decidable, so a closed example can be evaluated.
deriving instance DecidableEq for Except

/-- Go `xs[i]` as an expression: a bounds-checked read. -/
def index {α : Type} (xs : List α) (i : Int) : Except Fault α :=
  if 0 ≤ i then
    match xs[i.toNat]? with
    | some a => .ok a
    | none => .error .indexOutOfRange
  else .error .indexOutOfRange

/-- Go `xs[i] = v`: a bounds-checked write. -/
def store {α : Type} (xs : List α) (i : Int) (v : α) : Except Fault (List α) :=
  if 0 ≤ i ∧ i.toNat < xs.length then .ok (xs.set i.toNat v)
  else .error .indexOutOfRange

/-! ## package svg (src/svg.go) -/

namespace Svg

/-- Go `svg.Presentation`: six string attributes, `""` meaning absent. -/
structure Presentation where
  Color : String := ""
  Fill : String := ""
  Opacity : String := ""
  Stroke : String := ""
  StrokeDashArray : String := ""
  StrokeWidth : String := ""
  deriving DecidableEq, Repr

/-- Go `svg.PathDirective`, a string type. -/
abbrev PathDirective := String

def MoveTo : PathDirective := "M"
def LineTo : PathDirective := "L"
def HorizontalLineTo : PathDirective := "H"
def VerticalLineTo : PathDirective := "V"
def CurveTo : PathDirective := "C"
def SmoothCurveTo : PathDirective := "C"
def QuadraticBezierCurve : PathDirective := "Q"
def SmoothQuadraticBezierCurve : PathDirective := "T"
def EllipticalArc : PathDirective := "A"
def ClosePath : PathDirective := "Z"

/-- Go `svg.Point`. -/
structure Point where
  X : ℚ
  Y : ℚ
  deriving DecidableEq, Repr

/-- Go `svg.PathCommand`: a directive and an embedded `*Point`. -/
structure PathCommand where
  Directive : PathDirective
  Point : Option Svg.Point := none
  deriving DecidableEq, Repr

/-- Go `svg.Circle`. -/
structure Circle where
  Presentation : Option Svg.Presentation := none
  CX : ℚ := 0
  CY : ℚ := 0
  R : ℚ := 0
  deriving DecidableEq, Repr

/-- Go `svg.Ellipse`. -/
structure Ellipse where
  Presentation : Option Svg.Presentation := none
  CX : ℚ := 0
  CY : ℚ := 0
  RX : ℚ := 0
  RY : ℚ := 0
  deriving DecidableEq, Repr

/-- Go `svg.Image`. -/
structure Image where
  X : ℚ := 0
  Y : ℚ := 0
  Width : ℚ := 0
  Height : ℚ := 0
  HRef : String := ""
  deriving DecidableEq, Repr

/-- Go `svg.Line`. -/
structure Line where
  X1 : ℚ := 0
  Y1 : ℚ := 0
  X2 : ℚ := 0
  Y2 : ℚ := 0
  Presentation : Option Svg.Presentation := none
  deriving DecidableEq, Repr

/-- Go `svg.Path`. -/
structure Path where
  D : List PathCommand := []
  Presentation : Option Svg.Presentation := none
  deriving DecidableEq, Repr

/-- Go `svg.Polygon`. -/
structure Polygon where
  Points : List Svg.Point := []
  deriving DecidableEq, Repr

/-- Go `svg.Polyline`. -/
structure Polyline where
  Points : List Svg.Point := []
  deriving DecidableEq, Repr

/-- Go `svg.Rect`. -/
structure Rect where
  X : ℚ := 0
  Y : ℚ := 0
  RX : ℚ := 0
  RY : ℚ := 0
  Width : ℚ := 0
  Height : ℚ := 0
  deriving DecidableEq, Repr

/-- Go `svg.Text`: a content string and an embedded `*Point`. -/
structure Text where
  Content : String := ""
  Point : Option Svg.Point := none
  deriving DecidableEq, Repr

/-- Go `svg.Encoder`: the graphical primitives that can be the child of a
container.  The containers `Anchor` and `Group` carry their fields inline,
their `Children` being encoders again. -/
inductive Encoder where
  | anchor (Show Actuate HRef Target : String) (Children : List Encoder)
  | circle (c : Circle)
  | ellipse (e : Ellipse)
  | group (Presentation : Option Svg.Presentation) (Children : List Encoder)
  | image (i : Image)
  | line (l : Line)
  | path (p : Path)
  | polygon (p : Polygon)
  | polyline (p : Polyline)
  | rect (r : Rect)
  | text (t : Text)

/-- Go `svg.SVG`, the canvas. -/
structure SVG where
  Width : ℚ := 0
  Height : ℚ := 0
  Children : List Encoder := []
  Presentation : Option Svg.Presentation := none

/-! ### Formatting verbs of package fmt -/

/-- One lower-case hexadecimal digit, as `strconv` writes it in an escape. -/
def hexDigit (n : Nat) : Char := Nat.digitChar (n % 16)

/-- Go `strconv.Quote` on one rune (`appendEscapedRune`, quote `"`).  The table
behind `strconv.IsPrint` is not part of the repository and is the parameter
`isPrint`. -/
def escapeRune (isPrint : Char → Bool) (c : Char) : List Char :=
  if c = '"' ∨ c = '\\' then ['\\', c]
  else if isPrint c then [c]
  else if c = Char.ofNat 7 then ['\\', 'a']
  else if c = Char.ofNat 8 then ['\\', 'b']
  else if c = Char.ofNat 12 then ['\\', 'f']
  else if c = Char.ofNat 10 then ['\\', 'n']
  else if c = Char.ofNat 13 then ['\\', 'r']
  else if c = Char.ofNat 9 then ['\\', 't']
  else if c = Char.ofNat 11 then ['\\', 'v']
  else if c.toNat < 32 ∨ c.toNat = 127 then
    ['\\', 'x', hexDigit (c.toNat / 16), hexDigit c.toNat]
  else if c.toNat < 65536 then
    ['\\', 'u', hexDigit (c.toNat / 4096), hexDigit (c.toNat / 256),
      hexDigit (c.toNat / 16), hexDigit c.toNat]
  else
    ['\\', 'U', hexDigit (c.toNat / 268435456), hexDigit (c.toNat / 16777216),
      hexDigit (c.toNat / 1048576), hexDigit (c.toNat / 65536),
      hexDigit (c.toNat / 4096), hexDigit (c.toNat / 256),
      hexDigit (c.toNat / 16), hexDigit c.toNat]

/-- The verb `%q` on a string: `strconv.Quote`, the escaped runes between two
double quotes. -/
def Quote (isPrint : Char → Bool) (s : String) : String :=
  String.mk ('"' :: (s.data.flatMap (escapeRune isPrint) ++ ['"']))

/-- Rounding of a non-negative number to the nearest integer, a tie going to
the even neighbour (the decimal rounding of `strconv.FormatFloat`). -/
def roundHalfEven (q : ℚ) : Nat :=
  let f : Nat := Int.toNat ⌊q⌋
  let r : ℚ := q - (f : ℚ)
  if r < 1 / 2 then f
  else if 1 / 2 < r then f + 1
  else if f % 2 = 0 then f else f + 1

/-- The characters of the verbs `%.2f` (`prec = 2`) and `%f` (`prec = 6`) on a
float: sign, integer digits, a point and `prec` fraction digits. -/
def fixedChars (prec : Nat) (q : ℚ) : List Char :=
  let n : Nat := roundHalfEven (|q| * (10 : ℚ) ^ prec)
  let ip : List Char := Nat.toDigits 10 (n / 10 ^ prec)
  let fp : List Char := Nat.toDigits 10 (n % 10 ^ prec)
  (if q < 0 then ['-'] else []) ++ ip ++
    (if prec = 0 then [] else '.' :: (List.replicate (prec - fp.length) '0' ++ fp))

/-- The verbs `%.2f` and `%f` as strings. -/
def fixed (prec : Nat) (q : ℚ) : String := String.mk (fixedChars prec q)

/-! ### The Encode methods -/

/-- Go `(*Presentation).Encode`.  The receiver may be nil; the first field
read then panics. -/
def Presentation.Encode (isPrint : Char → Bool) :
    Option Presentation → Except Fault String
  | none => .error .nilDereference
  | some p =>
    let w := ""
    let w := if p.Color ≠ "" then w ++ " color=" ++ Quote isPrint p.Color else w
    let w := if p.Fill ≠ "" then w ++ " fill=" ++ Quote isPrint p.Fill else w
    let w := if p.Opacity ≠ "" then w ++ " opacity=" ++ Quote isPrint p.Opacity else w
    let w := if p.Stroke ≠ "" then w ++ " stroke=" ++ Quote isPrint p.Stroke else w
    let w := if p.StrokeDashArray ≠ "" then
      w ++ " stroke-dasharray=" ++ Quote isPrint p.StrokeDashArray else w
    let w := if p.StrokeWidth ≠ "" then
      w ++ " stroke-width=" ++ Quote isPrint p.StrokeWidth else w
    .ok w

/-- Go `(*Circle).Encode`. -/
def Circle.Encode (c : Circle) : String :=
  "<circle cx=\"" ++ fixed 2 c.CX ++ "\" cy=\"" ++ fixed 2 c.CY ++ "\" r=\"" ++ fixed 2 c.R
    ++ "\" />"

/-- Go `(*Ellipse).Encode`. -/
def Ellipse.Encode (e : Ellipse) : String :=
  "<ellipse cx=\"" ++ fixed 2 e.CX ++ "\" cy=\"" ++ fixed 2 e.CY ++ "\" rx=\"" ++ fixed 2 e.RX
    ++ "\" ry=\"" ++ fixed 2 e.RY ++ "\" />"

/-- Go `(*Image).Encode`. -/
def Image.Encode (i : Image) : String :=
  "<image xlink:href=\"" ++ i.HRef ++ "\" x=\"" ++ fixed 2 i.X ++ "\" y=\"" ++ fixed 2 i.Y
    ++ "\" width=\"" ++ fixed 2 i.Width ++ "\" height=\"" ++ fixed 2 i.Height ++ "\" />"

/-- Go `(*Line).Encode`. -/
def Line.Encode (isPrint : Char → Bool) (l : Line) : Except Fault String := do
  let w := "<line x1=\"" ++ fixed 2 l.X1 ++ "\" y1=\"" ++ fixed 2 l.Y1 ++ "\" x2=\""
    ++ fixed 2 l.X2 ++ "\" y2=\"" ++ fixed 2 l.Y2 ++ "\""
  let w ← match l.Presentation with
    | none => pure w
    | some p => do
      let a ← Presentation.Encode isPrint (some p)
      pure (w ++ a)
  pure (w ++ "/>")

/-- Go `(*PathCommand).Encode`. -/
def PathCommand.Encode (pc : PathCommand) : Except Fault String :=
  if pc.Directive = ClosePath then .ok "Z"
  else
    match pc.Point with
    | none => .error .nilDereference
    | some pt => .ok (pc.Directive ++ fixed 2 pt.X ++ " " ++ fixed 2 pt.Y ++ " ")

/-- The loop `for _, c := range p.D { c.Encode(w) }` of `(*Path).Encode`. -/
def encodeCommands : List PathCommand → Except Fault String
  | [] => .ok ""
  | c :: cs => do
    let a ← PathCommand.Encode c
    let b ← encodeCommands cs
    pure (a ++ b)

/-- Go `(*Path).Encode`. -/
def Path.Encode (isPrint : Char → Bool) (p : Path) : Except Fault String := do
  let w := "<path d=\""
  let d ← encodeCommands p.D
  let w := w ++ d ++ "\""
  let w ← match p.Presentation with
    | none => pure w
    | some q => do
      let a ← Presentation.Encode isPrint (some q)
      pure (w ++ a)
  pure (w ++ " />")

/-- The loop over the points of `(*Polygon).Encode` and `(*Polyline).Encode`:
each point is written as `%f,%f`, with nothing between two points. -/
def encodePoints : List Point → String
  | [] => ""
  | pt :: pts => fixed 6 pt.X ++ "," ++ fixed 6 pt.Y ++ encodePoints pts

/-- Go `(*Polygon).Encode`. -/
def Polygon.Encode (p : Polygon) : String :=
  "<polygon points=\"" ++ encodePoints p.Points ++ "\" />"

/-- Go `(*Polyline).Encode`. -/
def Polyline.Encode (p : Polyline) : String :=
  "<polyline points=\"" ++ encodePoints p.Points ++ "\" />"

/-- Go `(*Rect).Encode`. -/
def Rect.Encode (r : Rect) : String :=
  "<rect x=\"" ++ fixed 6 r.X ++ "\" y=\"" ++ fixed 6 r.Y ++ "\" rx=\"" ++ fixed 6 r.RX
    ++ "\" ry=\"" ++ fixed 6 r.RY ++ "\" width=\"" ++ fixed 6 r.Width ++ "\" height=\""
    ++ fixed 6 r.Height ++ "\" />"

/-- Go `(*Text).Encode`: the arguments `t.Point.X`, `t.Point.Y` are read before
anything is written. -/
def Text.Encode (t : Text) : Except Fault String :=
  match t.Point with
  | none => .error .nilDereference
  | some pt =>
    .ok ("<text x=\"" ++ fixed 2 pt.X ++ "\" y=\"" ++ fixed 2 pt.Y ++ "\">" ++ t.Content
      ++ "</text>")

mutual

/-- The method `Encode` of the interface `Encoder`, dispatched on the
primitive; `(*Anchor).Encode` and `(*Group).Encode` are the first and the
fourth case. -/
def Encoder.Encode (isPrint : Char → Bool) : Encoder → Except Fault String
  | .anchor sh actuate href target children => do
    let w := "<a xlink:show=\"" ++ sh ++ "\" xlink:actuate=\"" ++ actuate
      ++ "\" xlink:href=\"" ++ href ++ "\" xlink:target=\"" ++ target ++ "\">"
    let body ← encodeChildren isPrint children
    pure (w ++ body ++ "</a>")
  | .circle c => .ok (Circle.Encode c)
  | .ellipse e => .ok (Ellipse.Encode e)
  | .group _ children => do
    let w := "<g>"
    let body ← encodeChildren isPrint children
    pure (w ++ body ++ "</g>")
  | .image i => .ok (Image.Encode i)
  | .line l => Line.Encode isPrint l
  | .path p => Path.Encode isPrint p
  | .polygon p => .ok (Polygon.Encode p)
  | .polyline p => .ok (Polyline.Encode p)
  | .rect r => .ok (Rect.Encode r)
  | .text t => Text.Encode t

/-- The loop `for _, c := range children { c.Encode(w) }` of the containers. -/
def encodeChildren (isPrint : Char → Bool) : List Encoder → Except Fault String
  | [] => .ok ""
  | c :: cs => do
    let a ← Encoder.Encode isPrint c
    let b ← encodeChildren isPrint cs
    pure (a ++ b)

end

/-- Go `(*SVG).Encode`. -/
def SVG.Encode (isPrint : Char → Bool) (svg : SVG) : Except Fault String := do
  let w := "<svg xmlns=\"http://www.w3.org/2000/svg\" width=\"" ++ fixed 2 svg.Width
    ++ "\" height=\"" ++ fixed 2 svg.Height ++ "\""
  let a ← Presentation.Encode isPrint svg.Presentation
  let w := w ++ a
  let w := w ++ " >"
  let body ← encodeChildren isPrint svg.Children
  pure (w ++ body ++ "</svg>")

/-- The text `out` holds an attribute called `name`: somewhere in it stand a
space, the name and `=`. -/
def HasAttribute (out name : String) : Prop :=
  (" " ++ name ++ "=").data <:+: out.data

instance (out name : String) : Decidable (HasAttribute out name) :=
  inferInstanceAs (Decidable ((" " ++ name ++ "=").data <:+: out.data))

/-- `strconv.IsPrint` on ASCII: the runes from the space to the tilde.  It
stands for the table in closed examples. -/
def asciiIsPrint (c : Char) : Bool := decide (32 ≤ c.toNat ∧ c.toNat < 127)

end Svg

/-! ## package plot (src/plot/plot.go) -/

namespace Plot

/-- Go `plot.Point`, an interface with the two accessors `X()` and `Y()`. -/
structure Point where
  X : ℚ
  Y : ℚ
  deriving DecidableEq, Repr

/-- The loop of `Reverse`: `for ...; i < j; i, j = i+1, j-1 { swap }`. -/
def reverseLoop {α : Type} : Nat → List α → Int → Int → Except Fault (List α)
  | fuel, points, i, j =>
    if i < j then
      match fuel with
      | 0 => .error .fuelExhausted
      | fuel + 1 => do
        let pi ← index points i
        let pj ← index points j
        let points ← store points i pj
        let points ← store points j pi
        reverseLoop fuel points (i + 1) (j - 1)
    else .ok points

/-- Go `plot.Reverse`: `i, j := 0, len(points)-1`, then the loop. -/
def Reverse {α : Type} (points : List α) : Except Fault (List α) :=
  reverseLoop points.length points 0 ((points.length : Int) - 1)

/-- The four results of `Extrema`, in the order the source returns them:
`(minX, minY, maxX, maxY)`. -/
abbrev Bounds := ℚ × ℚ × ℚ × ℚ

/-- The loop of `Extrema`: `for i := 1; i < len(points); i++ { ... }`, the
four running values being the loop state. -/
def extremaLoop (points : List Point) : Nat → Nat → Bounds → Except Fault Bounds
  | fuel, i, (minX, minY, maxX, maxY) =>
    if i < points.length then
      match fuel with
      | 0 => .error .fuelExhausted
      | fuel + 1 => do
        let p ← index points i
        let x := p.X
        let y := p.Y
        let minX := if x < minX then x else minX
        let minY := if y < minY then y else minY
        let maxX := if x > maxX then x else maxX
        let maxY := if y > maxY then y else maxY
        extremaLoop points fuel (i + 1) (minX, minY, maxX, maxY)
    else .ok (minX, minY, maxX, maxY)

/-- Go `plot.Extrema`: the running values start at `points[0]`, then the loop
from index 1. -/
def Extrema (points : List Point) : Except Fault Bounds := do
  let p0 ← index points 0
  extremaLoop points points.length 1 (p0.X, p0.Y, p0.X, p0.Y)

/-- The loop of `Sample`: `for i := 0; i < len(points); i += n { s[i/n] = points[i] }`. -/
def sampleLoop {α : Type} (points : List α) (n : Nat) :
    Nat → Nat → List α → Except Fault (List α)
  | fuel, i, s =>
    if i < points.length then
      match fuel with
      | 0 => .error .fuelExhausted
      | fuel + 1 => do
        let p ← index points i
        let s ← store s ((i / n : Nat) : Int) p
        sampleLoop points n fuel (i + n) s
    else .ok s

/-- Go `plot.Sample`: `s := make([]Point, int(math.Ceil(float64(len(points))/float64(n))))`,
then the loop.  `zero` is the value `make` fills the new slice with (for the
interface type `Point`, nil).  The stride `n` is a natural number and every
statement below takes `0 < n`: with `n <= 0` the source divides a float by
zero or asks `make` for a negative length, which this model does not cover. -/
def Sample {α : Type} (zero : α) (points : List α) (n : Nat) : Except Fault (List α) :=
  let s := List.replicate (Int.toNat ⌈((points.length : ℚ) / (n : ℚ))⌉) zero
  sampleLoop points n points.length 0 s

/-- Go `const axisStride = 20.0` (pixels). -/
def axisStride : ℚ := 20

/-- Go `var AxesPresentation = &svg.Presentation{Opacity: "0.1"}`. -/
def AxesPresentation : Svg.Presentation := { Opacity := "0.1" }

/-- The first loop of `Axes`: `for y := axisStride; y < height; y += axisStride`,
appending one horizontal line per round. -/
def axesHorizontal (width height : ℚ) : Nat → ℚ → List Svg.Encoder →
    Except Fault (List Svg.Encoder)
  | fuel, y, es =>
    if y < height then
      match fuel with
      | 0 => .error .fuelExhausted
      | fuel + 1 =>
        axesHorizontal width height fuel (y + axisStride)
          (es ++ [Svg.Encoder.line
            { X1 := 0, Y1 := y, Y2 := y, X2 := width, Presentation := some AxesPresentation }])
    else .ok es

/-- The second loop of `Axes`: `for x := axisStride; x < width; x += axisStride`,
appending one vertical line per round. -/
def axesVertical (width height : ℚ) : Nat → ℚ → List Svg.Encoder →
    Except Fault (List Svg.Encoder)
  | fuel, x, es =>
    if x < width then
      match fuel with
      | 0 => .error .fuelExhausted
      | fuel + 1 =>
        axesVertical width height fuel (x + axisStride)
          (es ++ [Svg.Encoder.line
            { X1 := x, Y1 := 0, X2 := x, Y2 := height, Presentation := some AxesPresentation }])
    else .ok es

/-- Go `plot.Axes`.  The two loops get `⌈height/20⌉` and `⌈width/20⌉` rounds of
fuel. -/
def Axes (xMin yMin xMax yMax xUnit yUnit width height : ℚ) :
    Except Fault (List Svg.Encoder) := do
  let es : List Svg.Encoder := []
  let es ← axesHorizontal width height (Int.toNat ⌈height / axisStride⌉) axisStride es
  let es ← axesVertical width height (Int.toNat ⌈width / axisStride⌉) axisStride es
  pure es

/-- The loop of `Line`: `for i := 1; i < len(points); i++ { p.D = append(p.D, ...) }`,
the coordinates in exact arithmetic (`lineLoop64` is the same loop in
float64). -/
def lineLoop (points : List Point) (xMin yMin xUnit yUnit : ℚ) :
    Nat → Nat → Svg.Path → Except Fault Svg.Path
  | fuel, i, p =>
    if i < points.length then
      match fuel with
      | 0 => .error .fuelExhausted
      | fuel + 1 => do
        let pi ← index points i
        lineLoop points xMin yMin xUnit yUnit fuel (i + 1)
          { p with D := p.D ++ [{
              Directive := Svg.LineTo,
              Point := some { X := (pi.X - xMin) * xUnit, Y := (pi.Y - yMin) * yUnit } }] }
    else .ok p

/-- Go `plot.Line`, the scale factors and the coordinates in exact arithmetic
(`LinePath64` is its path in float64). -/
def Line (points : List Point) (width height : ℚ) : Except Fault Svg.SVG := do
  let (xMin, yMin, xMax, yMax) ← Extrema points
  let xUnit := width / (xMax - xMin)
  let yUnit := height / (yMax - yMin)
  let s : Svg.SVG :=
    { Width := width,
      Height := height,
      Presentation := some { Stroke := "black", Fill := "white", StrokeWidth := "0.7" } }
  let p : Svg.Path := { Presentation := some { Stroke := "red", StrokeWidth := "0.8" } }
  let p0 ← index points 0
  let p : Svg.Path :=
    { p with D := p.D ++ [{
        Directive := Svg.MoveTo,
        Point := some { X := (p0.X - xMin) * xUnit, Y := (p0.Y - yMin) * yUnit } }] }
  let p ← lineLoop points xMin yMin xUnit yUnit points.length 1 p
  let s : Svg.SVG := { s with Children := s.Children ++ [Svg.Encoder.path p] }
  let axes ← Axes xMin yMin xMax yMax xUnit yUnit width height
  let s : Svg.SVG := { s with Children := s.Children ++ axes }
  pure s

/-! ### The path of `Line` in the arithmetic of float64 -/

/-- A float64 value: a finite number, an infinity or NaN.  The sign of a zero
is not modelled (`-0` and `+0` are both `fin 0`). -/
inductive F64 where
  | fin (q : ℚ)
  | posInf
  | negInf
  | nan
  deriving DecidableEq

/-- The spacing of the float64 numbers around `q`: `2 ^ (e - 52)` for
`2 ^ e <= |q| < 2 ^ (e + 1)`, and `2 ^ (-1074)` below the normal range. -/
def ulp (q : ℚ) : ℚ := (2 : ℚ) ^ (max (Int.log 2 |q|) (-1022) - 52)

/-- Rounding to the nearest multiple of the spacing, a tie going to the even
multiple (IEEE 754 round to nearest, ties to even, before the overflow test). -/
def roundNearest (q : ℚ) : ℚ :=
  (if q < 0 then -1 else 1) * (Svg.roundHalfEven (|q| / ulp q) : ℚ) * ulp q

/-- The float64 result of an operation whose exact result is `q`: the rounded
value, or an infinity when it reaches `2 ^ 1024`. -/
def F64.round (q : ℚ) : F64 :=
  if (2 : ℚ) ^ 1024 ≤ roundNearest q then .posInf
  else if roundNearest q ≤ -(2 : ℚ) ^ 1024 then .negInf
  else .fin (roundNearest q)

/-- Go `a - b` on float64. -/
def F64.sub : F64 → F64 → F64
  | .fin a, .fin b => F64.round (a - b)
  | .nan, _ => .nan
  | _, .nan => .nan
  | .posInf, .posInf => .nan
  | .negInf, .negInf => .nan
  | .posInf, _ => .posInf
  | .negInf, _ => .negInf
  | .fin _, .posInf => .negInf
  | .fin _, .negInf => .posInf

/-- Go `a * b` on float64. -/
def F64.mul : F64 → F64 → F64
  | .fin a, .fin b => F64.round (a * b)
  | .nan, _ => .nan
  | _, .nan => .nan
  | .posInf, .fin b => if b = 0 then .nan else if 0 < b then .posInf else .negInf
  | .negInf, .fin b => if b = 0 then .nan else if 0 < b then .negInf else .posInf
  | .fin a, .posInf => if a = 0 then .nan else if 0 < a then .posInf else .negInf
  | .fin a, .negInf => if a = 0 then .nan else if 0 < a then .negInf else .posInf
  | .posInf, .posInf => .posInf
  | .negInf, .negInf => .posInf
  | .posInf, .negInf => .negInf
  | .negInf, .posInf => .negInf

/-- Go `a / b` on float64.  A zero divisor is taken as `+0`, which is the only
zero a span `xMax - xMin` can be. -/
def F64.div : F64 → F64 → F64
  | .fin a, .fin b =>
    if b = 0 then (if a = 0 then .nan else if 0 < a then .posInf else .negInf)
    else F64.round (a / b)
  | .nan, _ => .nan
  | _, .nan => .nan
  | .fin _, .posInf => .fin 0
  | .fin _, .negInf => .fin 0
  | .posInf, .fin b => if 0 ≤ b then .posInf else .negInf
  | .negInf, .fin b => if 0 ≤ b then .negInf else .posInf
  | .posInf, .posInf => .nan
  | .posInf, .negInf => .nan
  | .negInf, .posInf => .nan
  | .negInf, .negInf => .nan

/-- A command of the path with its float64 point. -/
structure Command64 where
  Directive : Svg.PathDirective
  X : F64
  Y : F64
  deriving DecidableEq

/-- The loop of `Line` in float64: as `lineLoop`, every `-` and `*` rounded. -/
def lineLoop64 (points : List Point) (xMin yMin : ℚ) (xUnit yUnit : F64) :
    Nat → Nat → List Command64 → Except Fault (List Command64)
  | fuel, i, D =>
    if i < points.length then
      match fuel with
      | 0 => .error .fuelExhausted
      | fuel + 1 => do
        let pi ← index points i
        lineLoop64 points xMin yMin xUnit yUnit fuel (i + 1)
          (D ++ [{
            Directive := Svg.LineTo,
            X := F64.mul (F64.sub (.fin pi.X) (.fin xMin)) xUnit,
            Y := F64.mul (F64.sub (.fin pi.Y) (.fin yMin)) yUnit }])
    else .ok D

/-- The path `p.D` that Go `plot.Line` builds, in the arithmetic of float64:
the statements of `Line` up to the end of its loop, with every `-`, `/` and
`*` rounded to float64.  The points and the sizes are float64 values, which
are rational numbers; `Extrema` only compares them. -/
def LinePath64 (points : List Point) (width height : ℚ) :
    Except Fault (List Command64) := do
  let (xMin, yMin, xMax, yMax) ← Extrema points
  let xUnit := F64.div (.fin width) (F64.sub (.fin xMax) (.fin xMin))
  let yUnit := F64.div (.fin height) (F64.sub (.fin yMax) (.fin yMin))
  let p0 ← index points 0
  let D : List Command64 := [] ++ [{
    Directive := Svg.MoveTo,
    X := F64.mul (F64.sub (.fin p0.X) (.fin xMin)) xUnit,
    Y := F64.mul (F64.sub (.fin p0.Y) (.fin yMin)) yUnit }]
  lineLoop64 points xMin yMin xUnit yUnit points.length 1 D

/-- The float64 path command with directive `d` for the point `q`. -/
def command64 (d : Svg.PathDirective) (xMin yMin : ℚ) (xUnit yUnit : F64) (q : Point) :
    Command64 :=
  { Directive := d,
    X := F64.mul (F64.sub (.fin q.X) (.fin xMin)) xUnit,
    Y := F64.mul (F64.sub (.fin q.Y) (.fin yMin)) yUnit }

end Plot

/-! ## Specification predicates -/

namespace Plot

/-- The value `m` is attained by `f` on `S` and is below `f` on all of `S`. -/
def IsMinOf (f : Point → ℚ) (S : List Point) (m : ℚ) : Prop :=
  (∃ p ∈ S, f p = m) ∧ ∀ p ∈ S, m ≤ f p

/-- The value `m` is attained by `f` on `S` and is above `f` on all of `S`. -/
def IsMaxOf (f : Point → ℚ) (S : List Point) (m : ℚ) : Prop :=
  (∃ p ∈ S, f p = m) ∧ ∀ p ∈ S, f p ≤ m

/-- The loop invariant of `Extrema`: the four running values are the extrema
of the points read so far. -/
def IsExtrema (S : List Point) (b : Bounds) : Prop :=
  IsMinOf Point.X S b.1 ∧ IsMinOf Point.Y S b.2.1 ∧
    IsMaxOf Point.X S b.2.2.1 ∧ IsMaxOf Point.Y S b.2.2.2

/-- The number of grid lines along a dimension of `d` pixels: the number of
`k >= 1` with `20 * k < d` (see `lt_gridCount_iff`). -/
def gridCount (d : ℚ) : Nat := Int.toNat (⌈d / axisStride⌉ - 1)

/-- The grid of a `width` by `height` canvas in closed form: the horizontal
lines at `y = 20, 40, ...` below `height`, then the vertical lines at
`x = 20, 40, ...` below `width`.  `Axes_eq` proves that `Axes` returns it. -/
def gridLines (width height : ℚ) : List Svg.Encoder :=
  (List.range (gridCount height)).map (fun (k : Nat) =>
      Svg.Encoder.line
        { X1 := 0, Y1 := axisStride * ((k : ℚ) + 1), X2 := width,
          Y2 := axisStride * ((k : ℚ) + 1), Presentation := some AxesPresentation })
    ++ (List.range (gridCount width)).map (fun (k : Nat) =>
      Svg.Encoder.line
        { X1 := axisStride * ((k : ℚ) + 1), Y1 := 0, X2 := axisStride * ((k : ℚ) + 1),
          Y2 := height, Presentation := some AxesPresentation })

/-- The path command with directive `d` at the canvas position of the point
`q`.  `Line_eq` proves that `Line` emits these. -/
def lineCommand (d : Svg.PathDirective) (xMin yMin xUnit yUnit : ℚ) (q : Point) :
    Svg.PathCommand :=
  { Directive := d, Point := some { X := (q.X - xMin) * xUnit, Y := (q.Y - yMin) * yUnit } }

end Plot

/-! ## Reads and writes at a natural-number index -/

theorem index_natCast {α : Type} (xs : List α) (k : Nat) (a : α) (h : xs[k]? = some a) :
    index xs (k : Int) = .ok a := by
  simp [index, h]

theorem store_natCast {α : Type} (xs : List α) (k : Nat) (v : α) (h : k < xs.length) :
    store xs (k : Int) v = .ok (xs.set k v) := by
  simp [store, h]

theorem getElem?_mid {α : Type} (pre post : List α) (a : α) (k : Nat) (h : k = pre.length) :
    (pre ++ a :: post)[k]? = some a := by
  subst h
  rw [List.getElem?_append_right (Nat.le_refl _)]
  simp

theorem set_mid {α : Type} (pre post : List α) (a b : α) (k : Nat) (h : k = pre.length) :
    (pre ++ a :: post).set k b = pre ++ b :: post := by
  subst h
  rw [List.set_append_right _ _ (Nat.le_refl _)]
  simp

namespace Plot

/-! ## Reverse -/

theorem reverseLoop_stop {α : Type} (fuel : Nat) (points : List α) (i j : Int) (h : ¬ i < j) :
    reverseLoop fuel points i j = .ok points := by
  cases fuel <;> simp [reverseLoop, h]

theorem reverseLoop_step {α : Type} (fuel : Nat) (pre mid post : List α) (a b : α) :
    reverseLoop (fuel + 1) (pre ++ a :: (mid ++ b :: post)) (pre.length : Int)
        ((pre.length : Int) + ((mid.length + 2 : Nat) : Int) - 1)
      = reverseLoop fuel ((pre ++ [b]) ++ mid ++ (a :: post))
          (((pre ++ [b]).length : Nat) : Int)
          ((((pre ++ [b]).length : Nat) : Int) + (mid.length : Int) - 1) := by
  have hj : (pre.length : Int) + ((mid.length + 2 : Nat) : Int) - 1
      = ((pre.length + mid.length + 1 : Nat) : Int) := by push_cast; ring
  have hi : (pre.length : Int) < ((pre.length + mid.length + 1 : Nat) : Int) := by
    push_cast; omega
  have e1 : (pre ++ a :: (mid ++ b :: post))[pre.length]? = some a :=
    getElem?_mid _ _ _ _ rfl
  have e2 : (pre ++ a :: (mid ++ b :: post))[pre.length + mid.length + 1]? = some b := by
    have := getElem?_mid (pre ++ a :: mid) post b (pre.length + mid.length + 1) (by simp; omega)
    simpa using this
  have s1 : (pre ++ a :: (mid ++ b :: post)).set pre.length b = pre ++ b :: (mid ++ b :: post) :=
    set_mid _ _ _ _ _ rfl
  have s2 : (pre ++ b :: (mid ++ b :: post)).set (pre.length + mid.length + 1) a
      = pre ++ b :: (mid ++ a :: post) := by
    have := set_mid (pre ++ b :: mid) post b a (pre.length + mid.length + 1) (by simp; omega)
    simpa using this
  rw [hj, reverseLoop]
  simp only [hi, if_true]
  rw [index_natCast _ _ _ e1, index_natCast _ _ _ e2]
  simp only [Except.bind, bind]
  rw [store_natCast _ _ _ (by simp), s1]
  simp only
  rw [store_natCast _ _ _ (by simp; omega), s2]
  simp only
  congr 1
  · simp
  · simp
  · simp only [List.length_append, List.length_singleton]; push_cast; ring

theorem reverseLoop_spec {α : Type} (mid : List α) :
    ∀ (fuel : Nat) (pre post : List α), mid.length ≤ 2 * fuel + 1 →
      reverseLoop fuel (pre ++ mid ++ post) (pre.length : Int)
          ((pre.length : Int) + (mid.length : Int) - 1)
        = .ok (pre ++ mid.reverse ++ post) := by
  induction mid using List.bidirectionalRec with
  | nil =>
    intro fuel pre post _
    exact reverseLoop_stop _ _ _ _ (by simp)
  | singleton a =>
    intro fuel pre post _
    exact reverseLoop_stop _ _ _ _ (by simp)
  | cons_append a l b ih =>
    intro fuel pre post hf
    cases fuel with
    | zero => simp at hf
    | succ fuel =>
      have h := reverseLoop_step fuel pre l post a b
      have e : pre ++ a :: (l ++ [b]) ++ post = pre ++ a :: (l ++ b :: post) := by simp
      have e3 : ((a :: (l ++ [b])).length : Int) = ((l.length + 2 : Nat) : Int) := by simp; ring
      rw [e, e3, h, ih fuel (pre ++ [b]) (a :: post) (by simp at hf; omega)]
      simp

theorem Reverse_eq {α : Type} (xs : List α) : Reverse xs = .ok xs.reverse := by
  have h := reverseLoop_spec xs xs.length [] [] (by omega)
  simpa [Reverse] using h

/-- C1: `Reverse` returns a sequence of the same length whose element at index
`i` is `xs[len(xs)-1-i]`; an empty or single-element sequence comes back
unchanged. -/
theorem Reverse_spec {α : Type} (xs : List α) :
    ∃ ys, Reverse xs = .ok ys ∧ ys.length = xs.length ∧
      (∀ i, i < xs.length → ys[i]? = xs[xs.length - 1 - i]?) ∧
      (xs.length ≤ 1 → ys = xs) := by
  refine ⟨xs.reverse, Reverse_eq xs, List.length_reverse xs, ?_, ?_⟩
  · intro i hi
    exact List.getElem?_reverse hi
  · intro h
    match xs, h with
    | [], _ => rfl
    | [_], _ => rfl

/-- C2: `Reverse` is an involution: reversing the result of `Reverse xs` gives
`xs` back. -/
theorem Reverse_involution {α : Type} (xs : List α) :
    ∃ ys, Reverse xs = .ok ys ∧ Reverse ys = .ok xs := by
  refine ⟨xs.reverse, Reverse_eq xs, ?_⟩
  rw [Reverse_eq, List.reverse_reverse]

/-! ## Extrema -/

theorem isMinOf_snoc {f : Point → ℚ} {S : List Point} {m : ℚ} (h : IsMinOf f S m)
    (p : Point) :
    IsMinOf f (S ++ [p]) (if f p < m then f p else m) := by
  obtain ⟨⟨q, hq, hqm⟩, hle⟩ := h
  split_ifs with hlt
  · refine ⟨⟨p, by simp, rfl⟩, fun r hr => ?_⟩
    rcases List.mem_append.mp hr with hr | hr
    · exact le_trans hlt.le (hle r hr)
    · simp at hr; subst hr; exact le_refl _
  · refine ⟨⟨q, by simp [hq], hqm⟩, fun r hr => ?_⟩
    rcases List.mem_append.mp hr with hr | hr
    · exact hle r hr
    · simp at hr; subst hr; exact not_lt.mp hlt

theorem isMaxOf_snoc {f : Point → ℚ} {S : List Point} {m : ℚ} (h : IsMaxOf f S m)
    (p : Point) :
    IsMaxOf f (S ++ [p]) (if f p > m then f p else m) := by
  obtain ⟨⟨q, hq, hqm⟩, hle⟩ := h
  split_ifs with hlt
  · refine ⟨⟨p, by simp, rfl⟩, fun r hr => ?_⟩
    rcases List.mem_append.mp hr with hr | hr
    · exact le_trans (hle r hr) (le_of_lt hlt)
    · simp at hr; subst hr; exact le_refl _
  · refine ⟨⟨q, by simp [hq], hqm⟩, fun r hr => ?_⟩
    rcases List.mem_append.mp hr with hr | hr
    · exact hle r hr
    · simp at hr; subst hr; exact not_lt.mp hlt

theorem extremaLoop_spec (points : List Point) :
    ∀ (fuel i : Nat) (b : Bounds), i ≤ points.length → points.length - i ≤ fuel →
      IsExtrema (points.take i) b →
      ∃ r, extremaLoop points fuel i b = .ok r ∧ IsExtrema points r := by
  intro fuel
  induction fuel with
  | zero =>
    intro i b hi hf hb
    have : ¬ i < points.length := by omega
    have e : i = points.length := by omega
    refine ⟨b, ?_, ?_⟩
    · obtain ⟨b1, b2, b3, b4⟩ := b
      simp [extremaLoop, this]
    · rw [e, List.take_length] at hb; exact hb
  | succ fuel ih =>
    intro i b hi hf hb
    obtain ⟨b1, b2, b3, b4⟩ := b
    by_cases hlt : i < points.length
    · have hget : points[i]? = some points[i] := List.getElem?_eq_getElem hlt
      have htake : points.take (i + 1) = points.take i ++ [points[i]] := by
        rw [List.take_succ, hget]; rfl
      obtain ⟨h1, h2, h3, h4⟩ := hb
      have hb2 : IsExtrema (points.take (i + 1))
          (if points[i].X < b1 then points[i].X else b1,
           if points[i].Y < b2 then points[i].Y else b2,
           if points[i].X > b3 then points[i].X else b3,
           if points[i].Y > b4 then points[i].Y else b4) := by
        rw [htake]
        exact ⟨isMinOf_snoc h1 _, isMinOf_snoc h2 _, isMaxOf_snoc h3 _, isMaxOf_snoc h4 _⟩
      obtain ⟨r, hr, hr2⟩ := ih (i + 1) _ (by omega) (by omega) hb2
      refine ⟨r, ?_, hr2⟩
      rw [extremaLoop]
      simp only [hlt, if_true]
      rw [index_natCast _ _ _ hget]
      exact hr
    · have e : i = points.length := by omega
      refine ⟨(b1, b2, b3, b4), ?_, ?_⟩
      · simp [extremaLoop, hlt]
      · rw [e, List.take_length] at hb; exact hb

theorem Extrema_isExtrema (points : List Point) (h : points ≠ []) :
    ∃ r, Extrema points = .ok r ∧ IsExtrema points r := by
  obtain ⟨p, rest, rfl⟩ := List.exists_cons_of_ne_nil h
  have h0 : IsExtrema ((p :: rest).take 1) (p.X, p.Y, p.X, p.Y) := by
    simp [IsExtrema, IsMinOf, IsMaxOf]
  obtain ⟨r, hr, hr2⟩ :=
    extremaLoop_spec (p :: rest) (p :: rest).length 1 _ (by simp) (by simp) h0
  refine ⟨r, ?_, hr2⟩
  have : index (p :: rest) 0 = .ok p := by simp [index]
  simp only [Extrema, this]
  exact hr

/-- C3: on a non-empty sequence `Extrema` returns `(minX, minY, maxX, maxY)`,
each value attained by some point and bounding that coordinate of every
point; `Extrema [p] = (p.x, p.y, p.x, p.y)`; and on
`[(1,1),(-1,10),(0,20),(-10,30),(100,5)]` the result is `(-10, 1, 100, 30)`. -/
theorem Extrema_spec (points : List Point) (h : points ≠ []) :
    (∃ minX minY maxX maxY, Extrema points = .ok (minX, minY, maxX, maxY) ∧
      (∃ p ∈ points, p.X = minX) ∧ (∀ p ∈ points, minX ≤ p.X) ∧
      (∃ p ∈ points, p.Y = minY) ∧ (∀ p ∈ points, minY ≤ p.Y) ∧
      (∃ p ∈ points, p.X = maxX) ∧ (∀ p ∈ points, p.X ≤ maxX) ∧
      (∃ p ∈ points, p.Y = maxY) ∧ (∀ p ∈ points, p.Y ≤ maxY)) ∧
    (∀ p : Point, Extrema [p] = .ok (p.X, p.Y, p.X, p.Y)) ∧
    Extrema [⟨1, 1⟩, ⟨-1, 10⟩, ⟨0, 20⟩, ⟨-10, 30⟩, ⟨100, 5⟩] = .ok (-10, 1, 100, 30) := by
  refine ⟨?_, ?_, ?_⟩
  · obtain ⟨⟨minX, minY, maxX, maxY⟩, hr, ⟨h1, h1b⟩, ⟨h2, h2b⟩, ⟨h3, h3b⟩, ⟨h4, h4b⟩⟩ :=
      Extrema_isExtrema points h
    exact ⟨minX, minY, maxX, maxY, hr, h1, h1b, h2, h2b, h3, h3b, h4, h4b⟩
  · intro p
    simp [Extrema, extremaLoop, index, bind, Except.bind]
  · simp [Extrema, extremaLoop, index, bind, Except.bind]
    norm_num

/-- Witness of C3 on the two points `(3,4)` and `(1,7)`. -/
theorem Extrema_spec_witness :
    ∃ minX minY maxX maxY,
      Extrema [⟨3, 4⟩, ⟨1, 7⟩] = .ok (minX, minY, maxX, maxY) ∧
      (∃ p ∈ [(⟨3, 4⟩ : Point), ⟨1, 7⟩], p.X = minX) ∧
      (∀ p ∈ [(⟨3, 4⟩ : Point), ⟨1, 7⟩], minX ≤ p.X) ∧
      (∃ p ∈ [(⟨3, 4⟩ : Point), ⟨1, 7⟩], p.Y = minY) ∧
      (∀ p ∈ [(⟨3, 4⟩ : Point), ⟨1, 7⟩], minY ≤ p.Y) ∧
      (∃ p ∈ [(⟨3, 4⟩ : Point), ⟨1, 7⟩], p.X = maxX) ∧
      (∀ p ∈ [(⟨3, 4⟩ : Point), ⟨1, 7⟩], p.X ≤ maxX) ∧
      (∃ p ∈ [(⟨3, 4⟩ : Point), ⟨1, 7⟩], p.Y = maxY) ∧
      (∀ p ∈ [(⟨3, 4⟩ : Point), ⟨1, 7⟩], p.Y ≤ maxY) :=
  (Extrema_spec [⟨3, 4⟩, ⟨1, 7⟩] (by simp)).1

end Plot

/-! ## Sample -/

namespace Plot

/-- The length `Sample` allocates. -/
theorem lt_sampleLen_iff (L n k : Nat) (hn : 0 < n) :
    k < Int.toNat ⌈((L : ℚ) / (n : ℚ))⌉ ↔ k * n < L := by
  have hn' : (0 : ℚ) < (n : ℚ) := by exact_mod_cast hn
  rw [Int.lt_toNat, Int.lt_ceil, lt_div_iff₀ hn']
  constructor
  · intro h; exact_mod_cast h
  · intro h; exact_mod_cast h

theorem sampleLoop_spec {α : Type} (points : List α) (n : Nat) (hn : 0 < n) (m : Nat)
    (hm : ∀ k, k < m ↔ k * n < points.length) :
    ∀ (fuel k : Nat) (s : List α), s.length = m → m - k ≤ fuel →
      (∀ j, j < k → s[j]? = points[j * n]?) →
      ∃ r, sampleLoop points n fuel (k * n) s = .ok r ∧ r.length = m ∧
        ∀ j, j < m → r[j]? = points[j * n]? := by
  intro fuel
  induction fuel with
  | zero =>
    intro k s hs hf hinv
    have hk : ¬ k < m := by omega
    have hlt : ¬ k * n < points.length := fun h => hk ((hm k).mpr h)
    refine ⟨s, by simp [sampleLoop, hlt], hs, fun j hj => hinv j (by omega)⟩
  | succ fuel ih =>
    intro k s hs hf hinv
    by_cases hlt : k * n < points.length
    · have hk : k < m := (hm k).mpr hlt
      have hget : points[k * n]? = some points[k * n] := List.getElem?_eq_getElem hlt
      have hdiv : k * n / n = k := Nat.mul_div_cancel k hn
      have hinv2 : ∀ j, j < k + 1 → (s.set k points[k * n])[j]? = points[j * n]? := by
        intro j hj
        by_cases hjk : j = k
        · subst hjk
          rw [List.getElem?_set_eq_of_lt _ (by omega), hget]
        · rw [List.getElem?_set_ne (Ne.symm hjk)]
          exact hinv j (by omega)
      obtain ⟨r, hr, hr2⟩ := ih (k + 1) (s.set k points[k * n]) (by simpa using hs)
        (by omega) hinv2
      refine ⟨r, ?_, hr2⟩
      rw [sampleLoop]
      simp only [hlt, if_true]
      rw [index_natCast _ _ _ hget]
      simp only [bind, Except.bind]
      rw [hdiv, store_natCast _ _ _ (by omega)]
      simp only
      rw [← Nat.succ_mul]
      exact hr
    · have hk : ¬ k < m := fun h => hlt ((hm k).mp h)
      refine ⟨s, by cases fuel <;> simp [sampleLoop, hlt], hs, fun j hj => hinv j (by omega)⟩

theorem Sample_ok {α : Type} (zero : α) (xs : List α) (n : Nat) (hn : 0 < n) :
    ∃ r, Sample zero xs n = .ok r ∧
      r.length = Int.toNat ⌈((xs.length : ℚ) / (n : ℚ))⌉ ∧
      ∀ k, k < r.length → k * n < xs.length ∧ r[k]? = xs[k * n]? := by
  have hm := fun k => lt_sampleLen_iff xs.length n k hn
  have hle : Int.toNat ⌈((xs.length : ℚ) / (n : ℚ))⌉ ≤ xs.length := by
    by_contra hc
    have h1 := (hm xs.length).mp (by omega)
    have h2 : xs.length * 1 ≤ xs.length * n := Nat.mul_le_mul_left _ hn
    omega
  obtain ⟨r, hr, hlen, hget⟩ := sampleLoop_spec xs n hn _ hm xs.length 0
    (List.replicate (Int.toNat ⌈((xs.length : ℚ) / (n : ℚ))⌉) zero)
    (by simp) (by omega) (by intro j hj; omega)
  refine ⟨r, ?_, hlen, ?_⟩
  · simpa [Sample] using hr
  · intro k hk
    rw [hlen] at hk
    exact ⟨(hm k).mp hk, hget k hk⟩

/-- The allocated length in natural-number arithmetic. -/
theorem sampleLen_eq (L n : Nat) (hn : 0 < n) :
    Int.toNat ⌈((L : ℚ) / (n : ℚ))⌉ = (L + n - 1) / n := by
  have hm := fun k => lt_sampleLen_iff L n k hn
  have hd : ∀ k, k < (L + n - 1) / n ↔ k * n < L := by
    intro k
    rw [Nat.lt_iff_add_one_le, Nat.le_div_iff_mul_le hn, Nat.succ_mul]
    omega
  rcases Nat.lt_trichotomy (Int.toNat ⌈((L : ℚ) / (n : ℚ))⌉) ((L + n - 1) / n) with h | h | h
  · have h1 := (hd _).mp h
    have h2 := (hm _).mpr h1
    omega
  · exact h
  · have h1 := (hm _).mp h
    have h2 := (hd _).mpr h1
    omega

/-- A list with the allocated length and the sampled elements is the result. -/
theorem Sample_eq_of {α : Type} (zero : α) (xs : List α) (n : Nat) (hn : 0 < n) (r : List α)
    (hlen : r.length = (xs.length + n - 1) / n)
    (hget : ∀ k, k < r.length → r[k]? = xs[k * n]?) :
    Sample zero xs n = .ok r := by
  obtain ⟨s, hs, hslen, hsget⟩ := Sample_ok zero xs n hn
  rw [sampleLen_eq _ _ hn] at hslen
  have : s = r := by
    apply List.ext_getElem?
    intro k
    by_cases hk : k < r.length
    · rw [hget k hk, (hsget k (by omega)).2]
    · rw [List.getElem?_eq_none (by omega), List.getElem?_eq_none (by omega)]
  rw [hs, this]

/-- C4: for a stride `n >= 1`, `Sample xs n` returns a sequence of length
`ceil(len(xs)/n)` whose element at index `k` is `xs[k*n]`; on
`[(1,1),(2,2),(3,3)]` stride 2 gives `[(1,1),(3,3)]`, strides 3 and 5 give
`[(1,1)]`. -/
theorem Sample_spec {α : Type} (zero : α) (xs : List α) (n : Nat) (hn : 1 ≤ n) :
    (∃ r, Sample zero xs n = .ok r ∧
      (r.length : Int) = ⌈((xs.length : ℚ) / (n : ℚ))⌉ ∧
      ∀ k, k < r.length → k * n < xs.length ∧ r[k]? = xs[k * n]?) ∧
    (∀ z : Point,
      Sample z [⟨1, 1⟩, ⟨2, 2⟩, ⟨3, 3⟩] 2 = .ok [⟨1, 1⟩, ⟨3, 3⟩] ∧
      Sample z [⟨1, 1⟩, ⟨2, 2⟩, ⟨3, 3⟩] 3 = .ok [⟨1, 1⟩] ∧
      Sample z [⟨1, 1⟩, ⟨2, 2⟩, ⟨3, 3⟩] 5 = .ok [⟨1, 1⟩]) := by
  refine ⟨?_, ?_⟩
  · obtain ⟨r, hr, hlen, hget⟩ := Sample_ok zero xs n hn
    refine ⟨r, hr, ?_, hget⟩
    rw [hlen, Int.toNat_of_nonneg]
    exact Int.ceil_nonneg (by positivity)
  · intro z
    refine ⟨?_, ?_, ?_⟩
    · apply Sample_eq_of _ _ _ (by decide) _ (by decide)
      intro k hk
      have : k = 0 ∨ k = 1 := by simp at hk; omega
      rcases this with rfl | rfl <;> rfl
    · apply Sample_eq_of _ _ _ (by decide) _ (by decide)
      intro k hk
      have : k = 0 := by simp at hk; omega
      subst this; rfl
    · apply Sample_eq_of _ _ _ (by decide) _ (by decide)
      intro k hk
      have : k = 0 := by simp at hk; omega
      subst this; rfl

/-- Witness of C4: stride 2 on a four-element sequence. -/
theorem Sample_spec_witness :
    ∃ r, Sample 0 [10, 11, 12, 13] 2 = .ok r ∧
      (r.length : Int) = ⌈(([10, 11, 12, 13] : List Nat).length : ℚ) / ((2 : Nat) : ℚ)⌉ ∧
      ∀ k, k < r.length → k * 2 < ([10, 11, 12, 13] : List Nat).length ∧
        r[k]? = ([10, 11, 12, 13] : List Nat)[k * 2]? :=
  (Sample_spec 0 [10, 11, 12, 13] 2 (by decide)).1

/-- C5: sampling with stride 1 is the identity. -/
theorem Sample_one {α : Type} (zero : α) (xs : List α) : Sample zero xs 1 = .ok xs := by
  apply Sample_eq_of _ _ _ (by decide) _ (by simp)
  intro k _
  simp

end Plot

/-! ## Axes -/

namespace Plot

theorem lt_gridCount_iff (d : ℚ) (k : Nat) :
    k < gridCount d ↔ axisStride * ((k : ℚ) + 1) < d := by
  have h20 : (0 : ℚ) < axisStride := by norm_num [axisStride]
  rw [gridCount, Int.lt_toNat, lt_sub_iff_add_lt, Int.lt_ceil, lt_div_iff₀ h20, mul_comm]
  push_cast
  rfl

theorem gridCount_le (d : ℚ) : gridCount d ≤ Int.toNat ⌈d / axisStride⌉ := by
  unfold gridCount
  omega

theorem axesHorizontal_spec (width height : ℚ) :
    ∀ (fuel k : Nat) (es : List Svg.Encoder), gridCount height - k ≤ fuel →
      axesHorizontal width height fuel (axisStride * ((k : ℚ) + 1)) es
        = .ok (es ++ (List.range' k (gridCount height - k)).map (fun (j : Nat) =>
            Svg.Encoder.line
              { X1 := 0, Y1 := axisStride * ((j : ℚ) + 1), X2 := width,
                Y2 := axisStride * ((j : ℚ) + 1), Presentation := some AxesPresentation })) := by
  intro fuel
  induction fuel with
  | zero =>
    intro k es hf
    have hk : ¬ k < gridCount height := by omega
    have hlt : ¬ axisStride * ((k : ℚ) + 1) < height :=
      fun h => hk ((lt_gridCount_iff _ _).mpr h)
    have e : gridCount height - k = 0 := by omega
    simp [axesHorizontal, hlt, e]
  | succ fuel ih =>
    intro k es hf
    by_cases hlt : axisStride * ((k : ℚ) + 1) < height
    · have hk : k < gridCount height := (lt_gridCount_iff _ _).mpr hlt
      have e : gridCount height - k = (gridCount height - (k + 1)) + 1 := by omega
      have ey : axisStride * ((k : ℚ) + 1) + axisStride
          = axisStride * (((k + 1 : Nat) : ℚ) + 1) := by
        push_cast; ring
      rw [axesHorizontal]
      simp only [hlt, if_true]
      rw [ey, ih (k + 1) _ (by omega), e, List.range'_succ]
      simp
    · have hk : ¬ k < gridCount height := fun h => hlt ((lt_gridCount_iff _ _).mp h)
      have e : gridCount height - k = 0 := by omega
      simp [axesHorizontal, hlt, e]

theorem axesVertical_spec (width height : ℚ) :
    ∀ (fuel k : Nat) (es : List Svg.Encoder), gridCount width - k ≤ fuel →
      axesVertical width height fuel (axisStride * ((k : ℚ) + 1)) es
        = .ok (es ++ (List.range' k (gridCount width - k)).map (fun (j : Nat) =>
            Svg.Encoder.line
              { X1 := axisStride * ((j : ℚ) + 1), Y1 := 0, X2 := axisStride * ((j : ℚ) + 1),
                Y2 := height, Presentation := some AxesPresentation })) := by
  intro fuel
  induction fuel with
  | zero =>
    intro k es hf
    have hk : ¬ k < gridCount width := by omega
    have hlt : ¬ axisStride * ((k : ℚ) + 1) < width := fun h => hk ((lt_gridCount_iff _ _).mpr h)
    have e : gridCount width - k = 0 := by omega
    simp [axesVertical, hlt, e]
  | succ fuel ih =>
    intro k es hf
    by_cases hlt : axisStride * ((k : ℚ) + 1) < width
    · have hk : k < gridCount width := (lt_gridCount_iff _ _).mpr hlt
      have e : gridCount width - k = (gridCount width - (k + 1)) + 1 := by omega
      have ey : axisStride * ((k : ℚ) + 1) + axisStride
          = axisStride * (((k + 1 : Nat) : ℚ) + 1) := by
        push_cast; ring
      rw [axesVertical]
      simp only [hlt, if_true]
      rw [ey, ih (k + 1) _ (by omega), e, List.range'_succ]
      simp
    · have hk : ¬ k < gridCount width := fun h => hlt ((lt_gridCount_iff _ _).mp h)
      have e : gridCount width - k = 0 := by omega
      simp [axesVertical, hlt, e]

theorem Axes_eq (xMin yMin xMax yMax xUnit yUnit width height : ℚ) :
    Axes xMin yMin xMax yMax xUnit yUnit width height = .ok (gridLines width height) := by
  have hh := axesHorizontal_spec width height (Int.toNat ⌈height / axisStride⌉) 0 []
    (by have := gridCount_le height; omega)
  have hv := axesVertical_spec width height (Int.toNat ⌈width / axisStride⌉) 0
    ([] ++ (List.range' 0 (gridCount height - 0)).map (fun (j : Nat) =>
            Svg.Encoder.line
              { X1 := 0, Y1 := axisStride * ((j : ℚ) + 1), X2 := width,
                Y2 := axisStride * ((j : ℚ) + 1), Presentation := some AxesPresentation }))
    (by have := gridCount_le width; omega)
  have e0 : axisStride * (((0 : Nat) : ℚ) + 1) = axisStride := by simp
  rw [e0] at hh hv
  simp only [Axes, bind, Except.bind, hh, hv, pure, Except.pure]
  simp [gridLines, List.range_eq_range']

/-! ## Line -/

theorem lineLoop_spec (points : List Point) (xMin yMin xUnit yUnit : ℚ) :
    ∀ (fuel i : Nat) (p : Svg.Path), points.length - i ≤ fuel →
      lineLoop points xMin yMin xUnit yUnit fuel i p
        = .ok { p with D := p.D ++
            (points.drop i).map (lineCommand Svg.LineTo xMin yMin xUnit yUnit) } := by
  intro fuel
  induction fuel with
  | zero =>
    intro i p hf
    have hlt : ¬ i < points.length := by omega
    have e : points.drop i = [] := List.drop_eq_nil_of_le (by omega)
    simp [lineLoop, hlt, e]
  | succ fuel ih =>
    intro i p hf
    by_cases hlt : i < points.length
    · have hget : points[i]? = some points[i] := List.getElem?_eq_getElem hlt
      have e : points.drop i = points[i] :: points.drop (i + 1) := List.drop_eq_getElem_cons hlt
      rw [lineLoop]
      simp only [hlt, if_true]
      rw [index_natCast _ _ _ hget]
      simp only [bind, Except.bind]
      rw [ih (i + 1) _ (by omega), e]
      simp only [List.map_cons, List.append_assoc, List.singleton_append, lineCommand]
    · have e : points.drop i = [] := List.drop_eq_nil_of_le (by omega)
      simp [lineLoop, hlt, e]

theorem Line_eq (p0 : Point) (rest : List Point) (width height xMin yMin xMax yMax : ℚ)
    (hE : Extrema (p0 :: rest) = .ok (xMin, yMin, xMax, yMax)) :
    Line (p0 :: rest) width height = .ok
      { Width := width,
        Height := height,
        Presentation := some { Stroke := "black", Fill := "white", StrokeWidth := "0.7" },
        Children :=
          Svg.Encoder.path
            { D := lineCommand Svg.MoveTo xMin yMin
                  (width / (xMax - xMin)) (height / (yMax - yMin)) p0 ::
                rest.map (lineCommand Svg.LineTo xMin yMin
                  (width / (xMax - xMin)) (height / (yMax - yMin))),
              Presentation := some { Stroke := "red", StrokeWidth := "0.8" } }
            :: gridLines width height } := by
  have h0 : index (p0 :: rest) 0 = .ok p0 := by simp [index]
  simp only [Line, hE, h0, bind, Except.bind, lineLoop_spec _ _ _ _ _ _ 1 _ (Nat.sub_le _ _),
    Axes_eq, pure, Except.pure]
  simp [lineCommand]

/-! ## The claims on Axes and Line -/

theorem gridCount_forty : gridCount 40 = 1 := by
  have h0 := lt_gridCount_iff 40 0
  have h1 := lt_gridCount_iff 40 1
  have a0 : axisStride * (((0 : Nat) : ℚ) + 1) < 40 := by norm_num [axisStride]
  have a1 : ¬ axisStride * (((1 : Nat) : ℚ) + 1) < 40 := by norm_num [axisStride]
  have := h0.mpr a0
  have := mt h1.mp a1
  omega

/-- C8: `Axes` returns the horizontal lines `(0, y)-(width, y)` for
`y = 20, 40, ...` below `height`, in increasing `y`, then the vertical lines
`(x, 0)-(x, height)` for `x = 20, 40, ...` below `width`, in increasing `x`,
each with the presentation whose only non-empty field is opacity "0.1", and
nothing else; a dimension of 20 or less gives no line on that axis; and
`Axes(-10,-10,10,10,1,1,40,40)` is one horizontal line at `y = 20` and one
vertical line at `x = 20`. -/
theorem Axes_spec (xMin yMin xMax yMax xUnit yUnit width height : ℚ) :
    (∃ nh nv : Nat,
      (∀ k : Nat, k < nh ↔ 20 * ((k : ℚ) + 1) < height) ∧
      (∀ k : Nat, k < nv ↔ 20 * ((k : ℚ) + 1) < width) ∧
      (height ≤ 20 → nh = 0) ∧ (width ≤ 20 → nv = 0) ∧
      Axes xMin yMin xMax yMax xUnit yUnit width height = .ok
        ((List.range nh).map (fun (k : Nat) =>
            Svg.Encoder.line
              { X1 := 0, Y1 := 20 * ((k : ℚ) + 1), X2 := width, Y2 := 20 * ((k : ℚ) + 1),
                Presentation := some
                  { Color := "", Fill := "", Opacity := "0.1", Stroke := "",
                    StrokeDashArray := "", StrokeWidth := "" } })
          ++ (List.range nv).map (fun (k : Nat) =>
            Svg.Encoder.line
              { X1 := 20 * ((k : ℚ) + 1), Y1 := 0, X2 := 20 * ((k : ℚ) + 1), Y2 := height,
                Presentation := some
                  { Color := "", Fill := "", Opacity := "0.1", Stroke := "",
                    StrokeDashArray := "", StrokeWidth := "" } }))) ∧
    Axes (-10) (-10) 10 10 1 1 40 40 = .ok
      [Svg.Encoder.line
          { X1 := 0, Y1 := 20, X2 := 40, Y2 := 20,
            Presentation := some
              { Color := "", Fill := "", Opacity := "0.1", Stroke := "",
                StrokeDashArray := "", StrokeWidth := "" } },
        Svg.Encoder.line
          { X1 := 20, Y1 := 0, X2 := 20, Y2 := 40,
            Presentation := some
              { Color := "", Fill := "", Opacity := "0.1", Stroke := "",
                StrokeDashArray := "", StrokeWidth := "" } }] := by
  refine ⟨⟨gridCount height, gridCount width, ?_, ?_, ?_, ?_, ?_⟩, ?_⟩
  · intro k; exact lt_gridCount_iff height k
  · intro k; exact lt_gridCount_iff width k
  · intro h
    by_contra hne
    have h0 := (lt_gridCount_iff height 0).mp (by omega)
    norm_num [axisStride] at h0
    linarith
  · intro h
    by_contra hne
    have h0 := (lt_gridCount_iff width 0).mp (by omega)
    norm_num [axisStride] at h0
    linarith
  · rw [Axes_eq]; rfl
  · rw [Axes_eq, gridLines, gridCount_forty]
    simp [List.range_succ, axisStride, AxesPresentation]

/-- C9: the data-space parameters of `Axes` are unused: two calls that agree
on `width` and `height` return the same list of lines. -/
theorem Axes_ignores_data_space
    (xMin yMin xMax yMax xUnit yUnit xMin2 yMin2 xMax2 yMax2 xUnit2 yUnit2 width height : ℚ) :
    Axes xMin yMin xMax yMax xUnit yUnit width height
      = Axes xMin2 yMin2 xMax2 yMax2 xUnit2 yUnit2 width height := rfl

/-- C6: for a non-empty sequence whose X span and Y span are non-zero, the
path built by `Line` has `len(points)` commands, the first a `MoveTo` and
every later one a `LineTo`, the `i`-th at
`((x_i - xMin) * width / (xMax - xMin), (y_i - yMin) * height / (yMax - yMin))`
with `(xMin, yMin, xMax, yMax) = Extrema(points)`; and
`Line([(1,1),(2,2),(3,3)], 200, 100)` has the points `(0,0)`, `(100,50)`,
`(200,100)`.  The two span hypotheses mark the inputs on which the division
of `ℚ` agrees with the float division of the source. -/
theorem Line_path_spec (points : List Point) (width height xMin yMin xMax yMax : ℚ)
    (hne : points ≠ [])
    (hE : Extrema points = .ok (xMin, yMin, xMax, yMax))
    (hx : xMax - xMin ≠ 0) (hy : yMax - yMin ≠ 0) :
    (∃ (s : Svg.SVG) (path : Svg.Path) (rest : List Svg.Encoder),
      Line points width height = .ok s ∧
      s.Children = Svg.Encoder.path path :: rest ∧
      path.D.length = points.length ∧
      ∀ (i : Nat) (p : Point), points[i]? = some p →
        path.D[i]? = some
          { Directive := if i = 0 then Svg.MoveTo else Svg.LineTo,
            Point := some
              { X := (p.X - xMin) * width / (xMax - xMin),
                Y := (p.Y - yMin) * height / (yMax - yMin) } }) ∧
    (∃ (s : Svg.SVG) (path : Svg.Path) (rest : List Svg.Encoder),
      Line [⟨1, 1⟩, ⟨2, 2⟩, ⟨3, 3⟩] 200 100 = .ok s ∧
      s.Children = Svg.Encoder.path path :: rest ∧
      path.D =
        [{ Directive := Svg.MoveTo, Point := some { X := 0, Y := 0 } },
         { Directive := Svg.LineTo, Point := some { X := 100, Y := 50 } },
         { Directive := Svg.LineTo, Point := some { X := 200, Y := 100 } }]) := by
  refine ⟨?_, ?_⟩
  · obtain ⟨p0, rest, rfl⟩ := List.exists_cons_of_ne_nil hne
    refine ⟨_, _, _, Line_eq p0 rest width height xMin yMin xMax yMax hE, rfl, by simp, ?_⟩
    intro i p hp
    cases i with
    | zero =>
      simp only [List.getElem?_cons_zero, Option.some.injEq] at hp
      subst hp
      simp [lineCommand, mul_div_assoc]
    | succ i =>
      simp only [List.getElem?_cons_succ] at hp
      simp [lineCommand, mul_div_assoc, hp]
  · have hE3 : Extrema [⟨1, 1⟩, ⟨2, 2⟩, ⟨3, 3⟩] = .ok (1, 1, 3, 3) := by
      simp [Extrema, extremaLoop, index, bind, Except.bind]
      norm_num
    refine ⟨_, _, _, Line_eq _ _ 200 100 1 1 3 3 hE3, rfl, ?_⟩
    simp [lineCommand]
    norm_num

/-- Witness of C6 on `[(0,0),(2,4)]` drawn on a 10 by 20 canvas. -/
theorem Line_path_spec_witness :
    ∃ (s : Svg.SVG) (path : Svg.Path) (rest : List Svg.Encoder),
      Line [⟨0, 0⟩, ⟨2, 4⟩] 10 20 = .ok s ∧
      s.Children = Svg.Encoder.path path :: rest ∧
      path.D.length = ([⟨0, 0⟩, ⟨2, 4⟩] : List Point).length ∧
      ∀ (i : Nat) (p : Point), ([⟨0, 0⟩, ⟨2, 4⟩] : List Point)[i]? = some p →
        path.D[i]? = some
          { Directive := if i = 0 then Svg.MoveTo else Svg.LineTo,
            Point := some
              { X := (p.X - 0) * 10 / (2 - 0),
                Y := (p.Y - 0) * 20 / (4 - 0) } } :=
  (Line_path_spec [⟨0, 0⟩, ⟨2, 4⟩] 10 20 0 0 2 4 (by simp)
    (by simp [Extrema, extremaLoop, index, bind, Except.bind])
    (by norm_num) (by norm_num)).1

/-- C7: on a non-empty sequence `Line` returns a canvas with the given width
and height, the presentation stroke "black", fill "white", stroke-width
"0.7", and as children one path with the presentation stroke "red",
stroke-width "0.8", followed by the list `Axes` returns for that width and
height. -/
theorem Line_canvas_spec (points : List Point) (width height : ℚ) (hne : points ≠ []) :
    ∃ (s : Svg.SVG) (D : List Svg.PathCommand) (axes : List Svg.Encoder),
      Line points width height = .ok s ∧
      s.Width = width ∧ s.Height = height ∧
      s.Presentation = some
        { Color := "", Fill := "white", Opacity := "", Stroke := "black",
          StrokeDashArray := "", StrokeWidth := "0.7" } ∧
      (∀ xMin yMin xMax yMax xUnit yUnit : ℚ,
        Axes xMin yMin xMax yMax xUnit yUnit width height = .ok axes) ∧
      s.Children =
        Svg.Encoder.path
          { D := D,
            Presentation := some
              { Color := "", Fill := "", Opacity := "", Stroke := "red",
                StrokeDashArray := "", StrokeWidth := "0.8" } } :: axes ∧
      s.Children.length = 1 + axes.length := by
  obtain ⟨p0, rest, rfl⟩ := List.exists_cons_of_ne_nil hne
  obtain ⟨⟨xMin, yMin, xMax, yMax⟩, hE, _⟩ := Extrema_isExtrema (p0 :: rest) hne
  refine ⟨_, _, gridLines width height, Line_eq p0 rest width height xMin yMin xMax yMax hE,
    rfl, rfl, rfl, ?_, rfl, ?_⟩
  · intro a b c d e f
    exact Axes_eq a b c d e f width height
  · simp [Nat.add_comm]

/-- Witness of C7 on `[(5,5),(7,9)]` and a 100 by 50 canvas. -/
theorem Line_canvas_spec_witness :
    ∃ (s : Svg.SVG) (D : List Svg.PathCommand) (axes : List Svg.Encoder),
      Line [⟨5, 5⟩, ⟨7, 9⟩] 100 50 = .ok s ∧
      s.Width = 100 ∧ s.Height = 50 ∧
      s.Presentation = some
        { Color := "", Fill := "white", Opacity := "", Stroke := "black",
          StrokeDashArray := "", StrokeWidth := "0.7" } ∧
      (∀ xMin yMin xMax yMax xUnit yUnit : ℚ,
        Axes xMin yMin xMax yMax xUnit yUnit 100 50 = .ok axes) ∧
      s.Children =
        Svg.Encoder.path
          { D := D,
            Presentation := some
              { Color := "", Fill := "", Opacity := "", Stroke := "red",
                StrokeDashArray := "", StrokeWidth := "0.8" } } :: axes ∧
      s.Children.length = 1 + axes.length :=
  Line_canvas_spec [⟨5, 5⟩, ⟨7, 9⟩] 100 50 (by simp)

/-- C10: `Extrema` and `Line` fail with an index out of range exactly when the
sequence is empty: both fail on the empty sequence, and on a non-empty one
`Extrema` (and `Line`) return a result. -/
theorem Extrema_Line_fail_iff_empty (points : List Point) :
    (points = [] →
      Extrema points = .error Fault.indexOutOfRange ∧
      ∀ width height : ℚ, Line points width height = .error Fault.indexOutOfRange) ∧
    (points ≠ [] →
      (∃ r, Extrema points = .ok r) ∧
      ∀ width height : ℚ, ∃ s, Line points width height = .ok s) := by
  refine ⟨?_, ?_⟩
  · rintro rfl
    exact ⟨rfl, fun _ _ => rfl⟩
  · intro hne
    obtain ⟨⟨xMin, yMin, xMax, yMax⟩, hE, _⟩ := Extrema_isExtrema points hne
    refine ⟨⟨_, hE⟩, fun width height => ?_⟩
    obtain ⟨p0, rest, rfl⟩ := List.exists_cons_of_ne_nil hne
    exact ⟨_, Line_eq p0 rest width height xMin yMin xMax yMax hE⟩

end Plot

/-! ## Sample: safety and composition -/

namespace Plot

/-- The slot `i / n` written in the round of index `i` lies inside the
allocated slice. -/
theorem div_lt_sampleLen (L n i : Nat) (hn : 0 < n) (hi : i < L) :
    i / n < Int.toNat ⌈((L : ℚ) / (n : ℚ))⌉ := by
  rw [lt_sampleLen_iff L n (i / n) hn]
  exact lt_of_le_of_lt (Nat.div_mul_le_self i n) hi

/-- C17: for a stride `n >= 1`, `Sample` terminates with a result (no round
runs out of fuel and no write is out of range), every index `i / n` it forms
for `i < len(points)` is below the allocated length, every slot of the result
is written (slot `k` in the round of index `k * n`, so the result does not
depend on the value the slice was allocated with, and holds no nil when the
points are not nil), and `Sample` of the empty sequence is empty. -/
theorem Sample_safe {α : Type} (zero : α) (xs : List α) (n : Nat) (hn : 1 ≤ n) :
    (∃ r, Sample zero xs n = .ok r ∧
      (∀ k, k < r.length → k * n < xs.length ∧ k * n / n = k) ∧
      (∀ zero2 : α, Sample zero2 xs n = .ok r) ∧
      (∃ s, Sample (none : Option α) (xs.map some) n = .ok s ∧ s = r.map some ∧
        ∀ o ∈ s, o ≠ none)) ∧
    (∀ i, i < xs.length → i / n < Int.toNat ⌈((xs.length : ℚ) / (n : ℚ))⌉) ∧
    Sample zero ([] : List α) n = .ok [] := by
  refine ⟨?_, ?_, ?_⟩
  · obtain ⟨r, hr, hlen, hget⟩ := Sample_ok zero xs n hn
    have hlen2 : r.length = (xs.length + n - 1) / n := by rw [hlen, sampleLen_eq _ _ hn]
    refine ⟨r, hr, ?_, ?_, ?_⟩
    · intro k hk
      exact ⟨(hget k hk).1, Nat.mul_div_cancel k hn⟩
    · intro zero2
      exact Sample_eq_of zero2 xs n hn r hlen2 (fun k hk => (hget k hk).2)
    · refine ⟨r.map some, ?_, rfl, ?_⟩
      · apply Sample_eq_of _ _ _ hn
        · simpa using hlen2
        · intro k hk
          have hk2 : k < r.length := by simpa using hk
          rw [List.getElem?_map, List.getElem?_map, (hget k hk2).2]
      · intro o ho
        obtain ⟨a, _, rfl⟩ := List.mem_map.mp ho
        simp
  · intro i hi
    exact div_lt_sampleLen _ _ _ hn hi
  · refine Sample_eq_of zero [] n hn [] ?_ (by simp)
    show 0 = (0 + n - 1) / n
    rw [Nat.div_eq_of_lt (by omega)]

/-- Witness of C17: stride 2 on a five-element sequence. -/
theorem Sample_safe_witness :
    ∃ r, Sample 0 [10, 11, 12, 13, 14] 2 = .ok r ∧
      (∀ k, k < r.length → k * 2 < ([10, 11, 12, 13, 14] : List Nat).length ∧ k * 2 / 2 = k) ∧
      (∀ zero2 : Nat, Sample zero2 [10, 11, 12, 13, 14] 2 = .ok r) ∧
      (∃ s, Sample (none : Option Nat) (([10, 11, 12, 13, 14] : List Nat).map some) 2 = .ok s ∧
        s = r.map some ∧ ∀ o ∈ s, o ≠ none) :=
  (Sample_safe 0 [10, 11, 12, 13, 14] 2 (by decide)).1

/-- C18: sampling composes multiplicatively: for strides `m >= 1` and
`n >= 1`, sampling `xs` by `m` and the result by `n` gives what sampling `xs`
by `m * n` gives. -/
theorem Sample_Sample {α : Type} (zero : α) (xs : List α) (m n : Nat)
    (hm : 1 ≤ m) (hn : 1 ≤ n) :
    ∃ s r, Sample zero xs m = .ok s ∧ Sample zero s n = .ok r ∧
      Sample zero xs (m * n) = .ok r := by
  obtain ⟨s, hs, hslen, hsget⟩ := Sample_ok zero xs m hm
  obtain ⟨r, hr, hrlen, hrget⟩ := Sample_ok zero s n hn
  refine ⟨s, r, hs, hr, ?_⟩
  have hmn : 0 < m * n := Nat.mul_pos hm hn
  have hiff : ∀ k, k < r.length ↔ k * (m * n) < xs.length := by
    intro k
    rw [hrlen, lt_sampleLen_iff _ _ _ hn, hslen, lt_sampleLen_iff _ _ _ hm]
    rw [Nat.mul_assoc, Nat.mul_comm n m]
  apply Sample_eq_of zero xs (m * n) hmn r
  · have h1 := fun k => lt_sampleLen_iff xs.length (m * n) k hmn
    rw [← sampleLen_eq _ _ hmn]
    rcases Nat.lt_trichotomy r.length (Int.toNat ⌈((xs.length : ℚ) / ((m * n : Nat) : ℚ))⌉)
      with h | h | h
    · have := (hiff _).mpr ((h1 _).mp h); omega
    · exact h
    · have := (h1 _).mpr ((hiff _).mp h); omega
  · intro k hk
    obtain ⟨hkn, hk1⟩ := hrget k hk
    obtain ⟨_, hk2⟩ := hsget (k * n) hkn
    rw [hk1, hk2, Nat.mul_assoc, Nat.mul_comm n m]

/-- Witness of C18: strides 2 and 3 on a seven-element sequence. -/
theorem Sample_Sample_witness :
    ∃ s r, Sample 0 [0, 1, 2, 3, 4, 5, 6] 2 = .ok s ∧ Sample 0 s 3 = .ok r ∧
      Sample 0 [0, 1, 2, 3, 4, 5, 6] (2 * 3) = .ok r :=
  Sample_Sample 0 [0, 1, 2, 3, 4, 5, 6] 2 3 (by decide) (by decide)

end Plot

/-! ## Line: the path in float64 -/

namespace Plot

/-- The integer part of a non-negative number and the two candidates of its
rounding. -/
theorem roundHalfEven_floor (q : ℚ) (hq : 0 ≤ q) :
    ((Int.toNat ⌊q⌋ : Nat) : ℚ) ≤ q ∧ q < ((Int.toNat ⌊q⌋ : Nat) : ℚ) + 1 ∧
      Int.toNat ⌊q⌋ ≤ Svg.roundHalfEven q ∧ Svg.roundHalfEven q ≤ Int.toNat ⌊q⌋ + 1 := by
  have h0 : 0 ≤ ⌊q⌋ := Int.floor_nonneg.mpr hq
  have hc : ((Int.toNat ⌊q⌋ : Nat) : ℚ) = ((⌊q⌋ : Int) : ℚ) := by
    have : ((Int.toNat ⌊q⌋ : Nat) : Int) = ⌊q⌋ := Int.toNat_of_nonneg h0
    exact_mod_cast congrArg (fun z : Int => (z : ℚ)) this
  refine ⟨?_, ?_, ?_, ?_⟩
  · rw [hc]; exact Int.floor_le q
  · rw [hc]; exact Int.lt_floor_add_one q
  · simp only [Svg.roundHalfEven]; split_ifs <;> omega
  · simp only [Svg.roundHalfEven]; split_ifs <;> omega

theorem roundHalfEven_natCast (n : Nat) : Svg.roundHalfEven (n : ℚ) = n := by
  simp [Svg.roundHalfEven]

/-- Rounding to the nearest integer is monotone. -/
theorem roundHalfEven_mono (a b : ℚ) (ha : 0 ≤ a) (hab : a ≤ b) :
    Svg.roundHalfEven a ≤ Svg.roundHalfEven b := by
  obtain ⟨a1, a2, a3, a4⟩ := roundHalfEven_floor a ha
  obtain ⟨b1, b2, b3, b4⟩ := roundHalfEven_floor b (le_trans ha hab)
  have hf : Int.toNat ⌊a⌋ ≤ Int.toNat ⌊b⌋ := Int.toNat_le_toNat (Int.floor_mono hab)
  rcases Nat.lt_or_ge (Int.toNat ⌊a⌋) (Int.toNat ⌊b⌋) with h | h
  · omega
  · have e : Int.toNat ⌊a⌋ = Int.toNat ⌊b⌋ := le_antisymm hf h
    simp only [Svg.roundHalfEven, e]
    rw [e] at a1 a2
    split_ifs <;> first | omega | (exfalso; linarith)

theorem ulp_pos (q : ℚ) : 0 < ulp q := by
  unfold ulp; positivity

theorem roundNearest_of_nonneg (q : ℚ) (hq : 0 ≤ q) :
    roundNearest q = (Svg.roundHalfEven (q / ulp q) : ℚ) * ulp q := by
  simp [roundNearest, not_lt.mpr hq, abs_of_nonneg hq]

theorem roundNearest_zero : roundNearest 0 = 0 := by
  rw [roundNearest_of_nonneg 0 le_rfl]
  simp [Svg.roundHalfEven]

theorem roundNearest_nonneg (q : ℚ) (hq : 0 ≤ q) : 0 ≤ roundNearest q := by
  rw [roundNearest_of_nonneg q hq]
  exact mul_nonneg (Nat.cast_nonneg _) (ulp_pos q).le

theorem ulp_eq (q : ℚ) : ulp q = (2 : ℚ) ^ (max (Int.log 2 |q|) (-1022) - 52) := rfl

/-- A number below `2 ^ (e + 1)` rounds to at most `2 ^ (e + 1)` on the grid
of spacing `2 ^ (e - 52)`. -/
theorem round_on_grid_le (q : ℚ) (e : Int) (hq : 0 ≤ q) (h : q ≤ (2 : ℚ) ^ (e + 1)) :
    (Svg.roundHalfEven (q / (2 : ℚ) ^ (e - 52)) : ℚ) * (2 : ℚ) ^ (e - 52)
      ≤ (2 : ℚ) ^ (e + 1) := by
  have hu : (0 : ℚ) < (2 : ℚ) ^ (e - 52) := by positivity
  have h1 : q / (2 : ℚ) ^ (e - 52) ≤ ((2 ^ 53 : Nat) : ℚ) := by
    rw [div_le_iff₀ hu]
    have : ((2 ^ 53 : Nat) : ℚ) * (2 : ℚ) ^ (e - 52) = (2 : ℚ) ^ (e + 1) := by
      have e2 : ((2 ^ 53 : Nat) : ℚ) = (2 : ℚ) ^ (53 : Int) := by norm_num
      rw [e2, ← zpow_add₀ (two_ne_zero)]
      congr 1; ring
    rw [this]; exact h
  have h2 := roundHalfEven_mono _ _ (div_nonneg hq hu.le) h1
  rw [roundHalfEven_natCast] at h2
  have h3 : (Svg.roundHalfEven (q / (2 : ℚ) ^ (e - 52)) : ℚ) ≤ ((2 ^ 53 : Nat) : ℚ) := by
    exact_mod_cast h2
  calc (Svg.roundHalfEven (q / (2 : ℚ) ^ (e - 52)) : ℚ) * (2 : ℚ) ^ (e - 52)
      ≤ ((2 ^ 53 : Nat) : ℚ) * (2 : ℚ) ^ (e - 52) := mul_le_mul_of_nonneg_right h3 hu.le
    _ = (2 : ℚ) ^ (e + 1) := by
      have e2 : ((2 ^ 53 : Nat) : ℚ) = (2 : ℚ) ^ (53 : Int) := by norm_num
      rw [e2, ← zpow_add₀ (two_ne_zero)]
      congr 1; ring

/-- A number from `2 ^ e` on rounds to at least `2 ^ e` on the grid of spacing
`2 ^ (e - 52)`. -/
theorem le_round_on_grid (q : ℚ) (e : Int) (h : (2 : ℚ) ^ e ≤ q) :
    (2 : ℚ) ^ e
      ≤ (Svg.roundHalfEven (q / (2 : ℚ) ^ (e - 52)) : ℚ) * (2 : ℚ) ^ (e - 52) := by
  have hu : (0 : ℚ) < (2 : ℚ) ^ (e - 52) := by positivity
  have hgrid : ((2 ^ 52 : Nat) : ℚ) * (2 : ℚ) ^ (e - 52) = (2 : ℚ) ^ e := by
    have e2 : ((2 ^ 52 : Nat) : ℚ) = (2 : ℚ) ^ (52 : Int) := by norm_num
    rw [e2, ← zpow_add₀ (two_ne_zero)]
    congr 1; ring
  have h1 : ((2 ^ 52 : Nat) : ℚ) ≤ q / (2 : ℚ) ^ (e - 52) := by
    rw [le_div_iff₀ hu, hgrid]; exact h
  have h2 := roundHalfEven_mono _ _ (Nat.cast_nonneg _) h1
  rw [roundHalfEven_natCast] at h2
  have h3 : ((2 ^ 52 : Nat) : ℚ) ≤ (Svg.roundHalfEven (q / (2 : ℚ) ^ (e - 52)) : ℚ) := by
    exact_mod_cast h2
  calc (2 : ℚ) ^ e = ((2 ^ 52 : Nat) : ℚ) * (2 : ℚ) ^ (e - 52) := hgrid.symm
    _ ≤ _ := mul_le_mul_of_nonneg_right h3 hu.le

/-- Rounding to float64 is monotone on the non-negative numbers. -/
theorem roundNearest_mono (a b : ℚ) (ha : 0 ≤ a) (hab : a ≤ b) :
    roundNearest a ≤ roundNearest b := by
  rcases eq_or_lt_of_le ha with rfl | hpos
  · rw [roundNearest_zero]; exact roundNearest_nonneg b hab
  · have hb : 0 < b := lt_of_lt_of_le hpos hab
    have hlog : Int.log 2 a ≤ Int.log 2 b := Int.log_mono_right hpos hab
    rw [roundNearest_of_nonneg a ha, roundNearest_of_nonneg b hb.le, ulp_eq, ulp_eq,
      abs_of_pos hpos, abs_of_pos hb]
    rcases lt_or_eq_of_le (max_le_max hlog (le_refl (-1022 : Int))) with hlt | heq
    · have ha2 : a ≤ (2 : ℚ) ^ (max (Int.log 2 a) (-1022) + 1) := by
        have h1 : a < ((2 : Nat) : ℚ) ^ (Int.log 2 a + 1) :=
          Int.lt_zpow_succ_log_self (by decide) a
        have h2 : ((2 : Nat) : ℚ) ^ (Int.log 2 a + 1)
            ≤ (2 : ℚ) ^ (max (Int.log 2 a) (-1022) + 1) := by
          rw [Nat.cast_ofNat]
          exact zpow_le_zpow_right₀ (by norm_num) (by omega)
        exact le_trans h1.le h2
      have hb2 : (2 : ℚ) ^ (max (Int.log 2 b) (-1022)) ≤ b := by
        have hmax : max (Int.log 2 b) (-1022) = Int.log 2 b := by omega
        rw [hmax]
        have h1 : ((2 : Nat) : ℚ) ^ Int.log 2 b ≤ b := Int.zpow_log_le_self (by decide) hb
        rwa [Nat.cast_ofNat] at h1
      have hmid : (2 : ℚ) ^ (max (Int.log 2 a) (-1022) + 1)
          ≤ (2 : ℚ) ^ (max (Int.log 2 b) (-1022)) :=
        zpow_le_zpow_right₀ (by norm_num) (by omega)
      exact le_trans (round_on_grid_le a _ ha ha2) (le_trans hmid (le_round_on_grid b _ hb2))
    · rw [heq]
      have hu : (0 : ℚ) < (2 : ℚ) ^ (max (Int.log 2 b) (-1022) - 52) := by positivity
      have h1 := roundHalfEven_mono _ _ (div_nonneg ha hu.le)
        (div_le_div_of_nonneg_right hab hu.le)
      exact mul_le_mul_of_nonneg_right (by exact_mod_cast h1) hu.le

theorem round_eq_fin (q r : ℚ) (h : F64.round q = .fin r) :
    r = roundNearest q ∧ r < (2 : ℚ) ^ 1024 ∧ -(2 : ℚ) ^ 1024 < r := by
  unfold F64.round at h
  split_ifs at h with h1 h2
  cases h
  exact ⟨rfl, not_le.mp h1, not_le.mp h2⟩

theorem round_of_bounds (q : ℚ) (h1 : roundNearest q < (2 : ℚ) ^ 1024)
    (h2 : -(2 : ℚ) ^ 1024 < roundNearest q) : F64.round q = .fin (roundNearest q) := by
  unfold F64.round
  rw [if_neg (not_le.mpr h1), if_neg (not_le.mpr h2)]

/-- A non-negative result below a finite one is finite, and the order is kept. -/
theorem round_le (a b rb : ℚ) (ha : 0 ≤ a) (hab : a ≤ b) (hb : F64.round b = .fin rb) :
    F64.round a = .fin (roundNearest a) ∧ 0 ≤ roundNearest a ∧ roundNearest a ≤ rb := by
  obtain ⟨e, hlt, _⟩ := round_eq_fin b rb hb
  have h0 := roundNearest_nonneg a ha
  have hle : roundNearest a ≤ rb := by rw [e]; exact roundNearest_mono a b ha hab
  refine ⟨round_of_bounds a (lt_of_le_of_lt hle hlt) ?_, h0, hle⟩
  have : -(2 : ℚ) ^ 1024 < 0 := by norm_num
  linarith

/-- One coordinate of the path in float64: with a finite span `s`, a finite
scale factor `u` and a finite top `top = s * u`, the coordinate of a value
between the extrema is finite and lies between 0 and `top`; it is 0 at the
minimum and `top` at the maximum. -/
theorem scaled64 (v lo hi size s u top : ℚ) (h1 : lo ≤ v) (h2 : v ≤ hi) (hsize : 0 ≤ size)
    (hs : F64.sub (.fin hi) (.fin lo) = .fin s)
    (hu : F64.div (.fin size) (.fin s) = .fin u)
    (ht : F64.mul (.fin s) (.fin u) = .fin top) :
    (∃ X, F64.mul (F64.sub (.fin v) (.fin lo)) (.fin u) = .fin X ∧ 0 ≤ X ∧ X ≤ top) ∧
    F64.mul (F64.sub (.fin lo) (.fin lo)) (.fin u) = .fin 0 ∧
    F64.mul (F64.sub (.fin hi) (.fin lo)) (.fin u) = .fin top := by
  have hs2 : F64.round (hi - lo) = .fin s := hs
  have ht2 : F64.round (s * u) = .fin top := ht
  obtain ⟨es, _, _⟩ := round_eq_fin _ _ hs2
  have hs0 : 0 ≤ s := by rw [es]; exact roundNearest_nonneg _ (by linarith)
  -- the divisor is not zero, the scale factor is a rounded quotient
  have hsne : s ≠ 0 := by
    intro h0
    rw [h0] at hu
    simp only [F64.div, if_true] at hu
    split_ifs at hu
  have hu2 : F64.round (size / s) = .fin u := by
    simpa [F64.div, hsne] using hu
  obtain ⟨eu, _, _⟩ := round_eq_fin _ _ hu2
  have hu0 : 0 ≤ u := by rw [eu]; exact roundNearest_nonneg _ (div_nonneg hsize hs0)
  -- the difference
  obtain ⟨hd, hd0, hdle⟩ := round_le (v - lo) (hi - lo) s (by linarith) (by linarith) hs2
  -- the product
  obtain ⟨hp, hp0, hple⟩ := round_le (roundNearest (v - lo) * u) (s * u) top
    (mul_nonneg hd0 hu0) (mul_le_mul_of_nonneg_right hdle hu0) ht2
  refine ⟨⟨roundNearest (roundNearest (v - lo) * u), ?_, hp0, hple⟩, ?_, ?_⟩
  · show F64.mul (F64.round (v - lo)) (.fin u) = _
    rw [hd]; exact hp
  · show F64.mul (F64.round (lo - lo)) (.fin u) = _
    have : F64.round (lo - lo) = .fin 0 := by
      rw [sub_self]
      have := round_of_bounds 0 (by rw [roundNearest_zero]; norm_num)
        (by rw [roundNearest_zero]; norm_num)
      rwa [roundNearest_zero] at this
    rw [this]
    show F64.round (0 * u) = _
    rw [zero_mul]
    have := round_of_bounds 0 (by rw [roundNearest_zero]; norm_num)
      (by rw [roundNearest_zero]; norm_num)
    rwa [roundNearest_zero] at this
  · show F64.mul (F64.round (hi - lo)) (.fin u) = _
    rw [hs2]; exact ht

theorem lineLoop64_spec (points : List Point) (xMin yMin : ℚ) (xUnit yUnit : F64) :
    ∀ (fuel i : Nat) (D : List Command64), points.length - i ≤ fuel →
      lineLoop64 points xMin yMin xUnit yUnit fuel i D
        = .ok (D ++ (points.drop i).map (command64 Svg.LineTo xMin yMin xUnit yUnit)) := by
  intro fuel
  induction fuel with
  | zero =>
    intro i D hf
    have hlt : ¬ i < points.length := by omega
    have e : points.drop i = [] := List.drop_eq_nil_of_le (by omega)
    simp [lineLoop64, hlt, e]
  | succ fuel ih =>
    intro i D hf
    by_cases hlt : i < points.length
    · have hget : points[i]? = some points[i] := List.getElem?_eq_getElem hlt
      have e : points.drop i = points[i] :: points.drop (i + 1) := List.drop_eq_getElem_cons hlt
      rw [lineLoop64]
      simp only [hlt, if_true]
      rw [index_natCast _ _ _ hget]
      simp only [bind, Except.bind]
      rw [ih (i + 1) _ (by omega), e]
      simp only [List.map_cons, List.append_assoc, List.singleton_append, command64]
    · have e : points.drop i = [] := List.drop_eq_nil_of_le (by omega)
      simp [lineLoop64, hlt, e]

/-- The float64 path of `Line` in closed form. -/
theorem LinePath64_eq (p0 : Point) (rest : List Point) (width height xMin yMin xMax yMax : ℚ)
    (hE : Extrema (p0 :: rest) = .ok (xMin, yMin, xMax, yMax)) :
    LinePath64 (p0 :: rest) width height = .ok
      (command64 Svg.MoveTo xMin yMin
          (F64.div (.fin width) (F64.sub (.fin xMax) (.fin xMin)))
          (F64.div (.fin height) (F64.sub (.fin yMax) (.fin yMin))) p0 ::
        rest.map (command64 Svg.LineTo xMin yMin
          (F64.div (.fin width) (F64.sub (.fin xMax) (.fin xMin)))
          (F64.div (.fin height) (F64.sub (.fin yMax) (.fin yMin))))) := by
  have h0 : index (p0 :: rest) 0 = .ok p0 := by simp [index]
  simp only [LinePath64, hE, h0, bind, Except.bind,
    lineLoop64_spec _ _ _ _ _ _ 1 _ (Nat.sub_le _ _)]
  simp [command64]

/-- Rounding to the nearest integer moves a number by at most one half. -/
theorem roundHalfEven_error (q : ℚ) (hq : 0 ≤ q) :
    |(Svg.roundHalfEven q : ℚ) - q| ≤ 1 / 2 := by
  obtain ⟨h1, h2, _, _⟩ := roundHalfEven_floor q hq
  rw [abs_le]
  simp only [Svg.roundHalfEven]
  split_ifs with c1 c2 c3 <;> push_cast <;> constructor <;> linarith

/-- Rounding to float64 moves a non-negative number by at most half a
spacing. -/
theorem roundNearest_error (q : ℚ) (hq : 0 ≤ q) : |roundNearest q - q| ≤ ulp q / 2 := by
  have hu := ulp_pos q
  rw [roundNearest_of_nonneg q hq]
  have h := roundHalfEven_error (q / ulp q) (div_nonneg hq hu.le)
  have e : (Svg.roundHalfEven (q / ulp q) : ℚ) * ulp q - q
      = ((Svg.roundHalfEven (q / ulp q) : ℚ) - q / ulp q) * ulp q := by
    field_simp
  rw [e, abs_mul, abs_of_pos hu]
  calc |(Svg.roundHalfEven (q / ulp q) : ℚ) - q / ulp q| * ulp q
      ≤ 1 / 2 * ulp q := mul_le_mul_of_nonneg_right h hu.le
    _ = ulp q / 2 := by ring

/-- The top coordinate `fl(s * fl(size / s))` is the size up to two
roundings. -/
theorem top64_error (size s u top : ℚ) (hsize : 0 ≤ size) (hs : 0 ≤ s)
    (hu : F64.div (.fin size) (.fin s) = .fin u)
    (ht : F64.mul (.fin s) (.fin u) = .fin top) :
    |top - size| ≤ ulp (s * u) / 2 + s * (ulp (size / s) / 2) := by
  have hsne : s ≠ 0 := by
    intro h0
    rw [h0] at hu
    simp only [F64.div, if_true] at hu
    split_ifs at hu
  have hu2 : F64.round (size / s) = .fin u := by
    simpa [F64.div, hsne] using hu
  have ht2 : F64.round (s * u) = .fin top := ht
  obtain ⟨eu, _, _⟩ := round_eq_fin _ _ hu2
  obtain ⟨et, _, _⟩ := round_eq_fin _ _ ht2
  have hq0 : 0 ≤ size / s := div_nonneg hsize hs
  have hu0 : 0 ≤ u := by rw [eu]; exact roundNearest_nonneg _ hq0
  have e1 : |top - s * u| ≤ ulp (s * u) / 2 := by
    rw [et]; exact roundNearest_error _ (mul_nonneg hs hu0)
  have e2 : |u - size / s| ≤ ulp (size / s) / 2 := by
    rw [eu]; exact roundNearest_error _ hq0
  have e3 : |s * u - size| ≤ s * (ulp (size / s) / 2) := by
    have : s * u - size = s * (u - size / s) := by field_simp; ring
    rw [this, abs_mul, abs_of_nonneg hs]
    exact mul_le_mul_of_nonneg_left e2 hs
  calc |top - size| = |(top - s * u) + (s * u - size)| := by ring_nf
    _ ≤ |top - s * u| + |s * u - size| := abs_add _ _
    _ ≤ _ := add_le_add e1 e3

/-- C19 (counterexample): in float64 the path of
`Line([(0,0),(25,25)], 7, 7)` leaves the canvas: `7/25` rounds up, and
`25 * fl(7/25)` rounds to `7 + 2^-50 = 7.000000000000001`, so the second
point has `X > width` and `Y > height`, and no point has `X = width` or
`Y = height`. -/
theorem LinePath64_leaves_canvas :
    Extrema [⟨0, 0⟩, ⟨25, 25⟩] = .ok (0, 0, 25, 25) ∧
    LinePath64 [⟨0, 0⟩, ⟨25, 25⟩] 7 7 = .ok
      [{ Directive := Svg.MoveTo, X := .fin 0, Y := .fin 0 },
       { Directive := Svg.LineTo, X := .fin (7 + 1 / 2 ^ 50), Y := .fin (7 + 1 / 2 ^ 50) }] ∧
    (7 : ℚ) < 7 + 1 / 2 ^ 50 ∧
    (¬ ∃ c ∈ ([{ Directive := Svg.MoveTo, X := .fin 0, Y := .fin 0 },
       { Directive := Svg.LineTo, X := .fin (7 + 1 / 2 ^ 50), Y := .fin (7 + 1 / 2 ^ 50) }] :
        List Command64), c.X = .fin 7 ∨ c.Y = .fin 7) := by
  refine ⟨by decide!, by decide!, by norm_num, by decide!⟩

/-- C19 (amended): for a non-empty sequence whose X span and Y span are
non-zero and a canvas with `width >= 0` and `height >= 0`, in the arithmetic
of float64 with a finite span, scale factor and top coordinate on each axis
(no overflow): every point of the path built by `Line` is finite and has
`0 <= X <= xTop` and `0 <= Y <= yTop`, where
`xTop = fl(fl(xMax - xMin) * fl(width / fl(xMax - xMin)))` is the `X` of a
point with `x = xMax` and `yTop` likewise; some path point has `X = 0`, some
`X = xTop`, some `Y = 0` and some `Y = yTop`; and `xTop` is `width`, `yTop`
is `height`, up to the two roundings (half a spacing each). -/
theorem LinePath64_bounds (points : List Point)
    (width height xMin yMin xMax yMax sx ux xTop sy uy yTop : ℚ)
    (hne : points ≠ [])
    (hE : Extrema points = .ok (xMin, yMin, xMax, yMax))
    (hx : xMax - xMin ≠ 0) (hy : yMax - yMin ≠ 0) (hw : 0 ≤ width) (hh : 0 ≤ height)
    (hsx : F64.sub (.fin xMax) (.fin xMin) = .fin sx)
    (hux : F64.div (.fin width) (.fin sx) = .fin ux)
    (hxTop : F64.mul (.fin sx) (.fin ux) = .fin xTop)
    (hsy : F64.sub (.fin yMax) (.fin yMin) = .fin sy)
    (huy : F64.div (.fin height) (.fin sy) = .fin uy)
    (hyTop : F64.mul (.fin sy) (.fin uy) = .fin yTop) :
    ∃ path : List Command64,
      LinePath64 points width height = .ok path ∧
      path.length = points.length ∧
      (∀ c ∈ path, ∃ X Y, c.X = .fin X ∧ c.Y = .fin Y ∧
        0 ≤ X ∧ X ≤ xTop ∧ 0 ≤ Y ∧ Y ≤ yTop) ∧
      (∃ c ∈ path, c.X = .fin 0) ∧ (∃ c ∈ path, c.X = .fin xTop) ∧
      (∃ c ∈ path, c.Y = .fin 0) ∧ (∃ c ∈ path, c.Y = .fin yTop) ∧
      |xTop - width| ≤ ulp (sx * ux) / 2 + sx * (ulp (width / sx) / 2) ∧
      |yTop - height| ≤ ulp (sy * uy) / 2 + sy * (ulp (height / sy) / 2) := by
  obtain ⟨r, hr, ⟨⟨a1, ha1, e1⟩, l1⟩, ⟨⟨a2, ha2, e2⟩, l2⟩, ⟨⟨a3, ha3, e3⟩, l3⟩,
    ⟨⟨a4, ha4, e4⟩, l4⟩⟩ := Extrema_isExtrema points hne
  rw [hE] at hr
  cases hr
  simp only at e1 e2 e3 e4 l1 l2 l3 l4
  obtain ⟨p0, tl, rfl⟩ := List.exists_cons_of_ne_nil hne
  have hsx0 : 0 ≤ sx := by
    obtain ⟨e, _, _⟩ := round_eq_fin _ _ (show F64.round (xMax - xMin) = .fin sx from hsx)
    rw [e]; exact roundNearest_nonneg _ (by have := l1 a3 ha3; rw [e3] at this; linarith)
  have hsy0 : 0 ≤ sy := by
    obtain ⟨e, _, _⟩ := round_eq_fin _ _ (show F64.round (yMax - yMin) = .fin sy from hsy)
    rw [e]; exact roundNearest_nonneg _ (by have := l2 a4 ha4; rw [e4] at this; linarith)
  -- the command of a point of the sequence
  have hcmd : ∀ (q : Point), q ∈ p0 :: tl →
      ∃ c ∈ (command64 Svg.MoveTo xMin yMin
              (F64.div (.fin width) (F64.sub (.fin xMax) (.fin xMin)))
              (F64.div (.fin height) (F64.sub (.fin yMax) (.fin yMin))) p0 ::
            tl.map (command64 Svg.LineTo xMin yMin
              (F64.div (.fin width) (F64.sub (.fin xMax) (.fin xMin)))
              (F64.div (.fin height) (F64.sub (.fin yMax) (.fin yMin))))),
        c.X = F64.mul (F64.sub (.fin q.X) (.fin xMin)) (.fin ux) ∧
        c.Y = F64.mul (F64.sub (.fin q.Y) (.fin yMin)) (.fin uy) := by
    intro q hq
    rcases List.mem_cons.mp hq with rfl | hq
    · exact ⟨_, List.mem_cons_self _ _, by simp [command64, hsx, hux], by
        simp [command64, hsy, huy]⟩
    · exact ⟨_, List.mem_cons_of_mem _ (List.mem_map_of_mem _ hq), by
        simp [command64, hsx, hux], by simp [command64, hsy, huy]⟩
  refine ⟨_, LinePath64_eq p0 tl width height xMin yMin xMax yMax hE, by simp,
    ?_, ?_, ?_, ?_, ?_, top64_error width sx ux xTop hw hsx0 hux hxTop,
    top64_error height sy uy yTop hh hsy0 huy hyTop⟩
  · intro c hc
    have hq : ∃ q ∈ p0 :: tl,
        c.X = F64.mul (F64.sub (.fin q.X) (.fin xMin)) (.fin ux) ∧
        c.Y = F64.mul (F64.sub (.fin q.Y) (.fin yMin)) (.fin uy) := by
      rcases List.mem_cons.mp hc with rfl | hc
      · exact ⟨p0, List.mem_cons_self _ _, by simp [command64, hsx, hux], by
          simp [command64, hsy, huy]⟩
      · obtain ⟨q, hq, rfl⟩ := List.mem_map.mp hc
        exact ⟨q, List.mem_cons_of_mem _ hq, by simp [command64, hsx, hux], by
          simp [command64, hsy, huy]⟩
    obtain ⟨q, hq, hX, hY⟩ := hq
    obtain ⟨⟨X, eX, X0, X1⟩, _, _⟩ :=
      scaled64 q.X xMin xMax width sx ux xTop (l1 q hq) (l3 q hq) hw hsx hux hxTop
    obtain ⟨⟨Y, eY, Y0, Y1⟩, _, _⟩ :=
      scaled64 q.Y yMin yMax height sy uy yTop (l2 q hq) (l4 q hq) hh hsy huy hyTop
    exact ⟨X, Y, hX.trans eX, hY.trans eY, X0, X1, Y0, Y1⟩
  · obtain ⟨c, hc, hX, _⟩ := hcmd a1 ha1
    refine ⟨c, hc, ?_⟩
    rw [hX, e1]
    exact (scaled64 xMin xMin xMax width sx ux xTop le_rfl
      (by have := l1 a3 ha3; rw [e3] at this; exact this) hw hsx hux hxTop).2.1
  · obtain ⟨c, hc, hX, _⟩ := hcmd a3 ha3
    refine ⟨c, hc, ?_⟩
    rw [hX, e3]
    exact (scaled64 xMin xMin xMax width sx ux xTop le_rfl
      (by have := l1 a3 ha3; rw [e3] at this; exact this) hw hsx hux hxTop).2.2
  · obtain ⟨c, hc, _, hY⟩ := hcmd a2 ha2
    refine ⟨c, hc, ?_⟩
    rw [hY, e2]
    exact (scaled64 yMin yMin yMax height sy uy yTop le_rfl
      (by have := l2 a4 ha4; rw [e4] at this; exact this) hh hsy huy hyTop).2.1
  · obtain ⟨c, hc, _, hY⟩ := hcmd a4 ha4
    refine ⟨c, hc, ?_⟩
    rw [hY, e4]
    exact (scaled64 yMin yMin yMax height sy uy yTop le_rfl
      (by have := l2 a4 ha4; rw [e4] at this; exact this) hh hsy huy hyTop).2.2

/-- Witness of C19 (amended) on `[(0,0),(25,25)]` and a 7 by 7 canvas, where
the top coordinate is `7 + 2^-50`. -/
theorem LinePath64_bounds_witness :
    ∃ path : List Command64,
      LinePath64 [⟨0, 0⟩, ⟨25, 25⟩] 7 7 = .ok path ∧
      path.length = ([⟨0, 0⟩, ⟨25, 25⟩] : List Point).length ∧
      (∀ c ∈ path, ∃ X Y, c.X = .fin X ∧ c.Y = .fin Y ∧
        0 ≤ X ∧ X ≤ 7 + 1 / 2 ^ 50 ∧ 0 ≤ Y ∧ Y ≤ 7 + 1 / 2 ^ 50) ∧
      (∃ c ∈ path, c.X = .fin 0) ∧ (∃ c ∈ path, c.X = .fin (7 + 1 / 2 ^ 50)) ∧
      (∃ c ∈ path, c.Y = .fin 0) ∧ (∃ c ∈ path, c.Y = .fin (7 + 1 / 2 ^ 50)) ∧
      |(7 + 1 / 2 ^ 50 : ℚ) - 7|
        ≤ ulp (25 * (5044031582654956 / 2 ^ 54)) / 2 + 25 * (ulp (7 / 25) / 2) ∧
      |(7 + 1 / 2 ^ 50 : ℚ) - 7|
        ≤ ulp (25 * (5044031582654956 / 2 ^ 54)) / 2 + 25 * (ulp (7 / 25) / 2) :=
  LinePath64_bounds [⟨0, 0⟩, ⟨25, 25⟩] 7 7 0 0 25 25
    25 (5044031582654956 / 2 ^ 54) (7 + 1 / 2 ^ 50)
    25 (5044031582654956 / 2 ^ 54) (7 + 1 / 2 ^ 50)
    (by simp) (by decide!) (by norm_num) (by norm_num) (by norm_num) (by norm_num)
    (by decide!) (by decide!) (by decide!) (by decide!) (by decide!) (by decide!)

end Plot

/-! ## Presentation.Encode -/

namespace Svg

/-- A rune that `%q` writes as it is: printable, and neither the quote nor
the backslash. -/
theorem escapeRune_plain (isPrint : Char → Bool) (c : Char)
    (h : c ≠ '"' ∧ c ≠ '\\' ∧ isPrint c = true) : escapeRune isPrint c = [c] := by
  simp [escapeRune, h.1, h.2.1, h.2.2]

theorem flatMap_escapeRune_plain (isPrint : Char → Bool) (cs : List Char)
    (h : ∀ c ∈ cs, c ≠ '"' ∧ c ≠ '\\' ∧ isPrint c = true) :
    cs.flatMap (escapeRune isPrint) = cs := by
  induction cs with
  | nil => rfl
  | cons c cs ih =>
    rw [List.flatMap_cons, escapeRune_plain isPrint c (h c (List.mem_cons_self _ _)),
      ih (fun d hd => h d (List.mem_cons_of_mem _ hd))]
    rfl

/-- On a string without a rune to escape `%q` adds the two quotes only. -/
theorem Quote_plain (isPrint : Char → Bool) (s : String)
    (h : ∀ c ∈ s.data, c ≠ '"' ∧ c ≠ '\\' ∧ isPrint c = true) :
    Quote isPrint s = "\"" ++ s ++ "\"" := by
  apply String.ext
  simp [Quote, flatMap_escapeRune_plain isPrint s.data h]

/-- `Presentation.Encode` as the concatenation of one piece per field. -/
theorem Presentation_Encode_eq (isPrint : Char → Bool) (p : Presentation) :
    Presentation.Encode isPrint (some p) = .ok
      ((if p.Color = "" then "" else " color=" ++ Quote isPrint p.Color)
        ++ (if p.Fill = "" then "" else " fill=" ++ Quote isPrint p.Fill)
        ++ (if p.Opacity = "" then "" else " opacity=" ++ Quote isPrint p.Opacity)
        ++ (if p.Stroke = "" then "" else " stroke=" ++ Quote isPrint p.Stroke)
        ++ (if p.StrokeDashArray = "" then ""
            else " stroke-dasharray=" ++ Quote isPrint p.StrokeDashArray)
        ++ (if p.StrokeWidth = "" then ""
            else " stroke-width=" ++ Quote isPrint p.StrokeWidth)) := by
  simp only [Presentation.Encode, ne_eq, ite_not]
  congr 1
  split_ifs <;> simp [String.append_assoc]

/-- C13: for a presentation whose field values hold no rune that `%q` escapes,
`Presentation.Encode` writes, in the order color, fill, opacity, stroke,
stroke-dasharray, stroke-width, one space-prefixed `name="value"` pair for
each non-empty field and nothing for an empty field; with all fields empty it
writes the empty string. -/
theorem Presentation_Encode_spec (isPrint : Char → Bool) (p : Presentation)
    (h : ∀ v ∈ [p.Color, p.Fill, p.Opacity, p.Stroke, p.StrokeDashArray, p.StrokeWidth],
      ∀ c ∈ v.data, c ≠ '"' ∧ c ≠ '\\' ∧ isPrint c = true) :
    Presentation.Encode isPrint (some p) = .ok
      ((if p.Color = "" then "" else " color=\"" ++ p.Color ++ "\"")
        ++ (if p.Fill = "" then "" else " fill=\"" ++ p.Fill ++ "\"")
        ++ (if p.Opacity = "" then "" else " opacity=\"" ++ p.Opacity ++ "\"")
        ++ (if p.Stroke = "" then "" else " stroke=\"" ++ p.Stroke ++ "\"")
        ++ (if p.StrokeDashArray = "" then ""
            else " stroke-dasharray=\"" ++ p.StrokeDashArray ++ "\"")
        ++ (if p.StrokeWidth = "" then "" else " stroke-width=\"" ++ p.StrokeWidth ++ "\""))
    ∧ Presentation.Encode isPrint
        (some { Color := "", Fill := "", Opacity := "", Stroke := "",
                StrokeDashArray := "", StrokeWidth := "" }) = .ok "" := by
  refine ⟨?_, by rfl⟩
  rw [Presentation_Encode_eq,
    Quote_plain isPrint p.Color (h _ (by simp)),
    Quote_plain isPrint p.Fill (h _ (by simp)),
    Quote_plain isPrint p.Opacity (h _ (by simp)),
    Quote_plain isPrint p.Stroke (h _ (by simp)),
    Quote_plain isPrint p.StrokeDashArray (h _ (by simp)),
    Quote_plain isPrint p.StrokeWidth (h _ (by simp))]
  simp only [← String.append_assoc]
  rfl

/-- Witness of C13: the presentation of the path of a line plot. -/
theorem Presentation_Encode_spec_witness :
    Presentation.Encode asciiIsPrint
        (some { Color := "", Fill := "", Opacity := "", Stroke := "red",
                StrokeDashArray := "", StrokeWidth := "0.8" })
      = .ok " stroke=\"red\" stroke-width=\"0.8\"" :=
  (Presentation_Encode_spec asciiIsPrint
    { Color := "", Fill := "", Opacity := "", Stroke := "red",
      StrokeDashArray := "", StrokeWidth := "0.8" } (by decide)).1

end Svg

/-! ## The canvas, the line and the path -/

namespace Svg

/-- C11 (what the code does on the failing input): a canvas without a
presentation does not encode; `SVG.Encode` calls `Presentation.Encode` on the
nil pointer, whose first field read panics, whatever the width, height and
children are.  `Line.Encode` and `Path.Encode` test the pointer first and
encode. -/
theorem SVG_Encode_nil_presentation (isPrint : Char → Bool) (width height : ℚ)
    (children : List Encoder) :
    SVG.Encode isPrint
        { Width := width, Height := height, Children := children, Presentation := none }
      = .error Fault.nilDereference
    ∧ (∃ out, Line.Encode isPrint
        { X1 := 0, Y1 := 0, X2 := width, Y2 := height, Presentation := none } = .ok out)
    ∧ (∃ out, Path.Encode isPrint { D := [], Presentation := none } = .ok out) := by
  refine ⟨rfl, ⟨_, rfl⟩, ⟨_, rfl⟩⟩

/-- `Line.Encode` without a presentation, in closed form. -/
theorem Line_Encode_none (isPrint : Char → Bool) (x1 y1 x2 y2 : ℚ) :
    Line.Encode isPrint { X1 := x1, Y1 := y1, X2 := x2, Y2 := y2, Presentation := none }
      = .ok ("<line x1=\"" ++ fixed 2 x1 ++ "\" y1=\"" ++ fixed 2 y1 ++ "\" x2=\""
          ++ fixed 2 x2 ++ "\" y2=\"" ++ fixed 2 y2 ++ "\"" ++ "/>") := rfl

/-- C14 (what the code does on the failing input): `Line.Encode` without a
presentation writes `/>` directly after the last attribute, with no space;
`Line{X1:4, Y1:4, X2:5, Y2:5}` encodes to
`<line x1="4.00" y1="4.00" x2="5.00" y2="5.00"/>`, which is not the string
`<line x1="4.00" y1="4.00" x2="5.00" y2="5.00" />` that `TestLine` wants. -/
theorem Line_Encode_no_space (isPrint : Char → Bool) (x1 y1 x2 y2 : ℚ) :
    Line.Encode isPrint { X1 := x1, Y1 := y1, X2 := x2, Y2 := y2, Presentation := none }
      = .ok ("<line x1=\"" ++ fixed 2 x1 ++ "\" y1=\"" ++ fixed 2 y1 ++ "\" x2=\""
          ++ fixed 2 x2 ++ "\" y2=\"" ++ fixed 2 y2 ++ "\"/>")
    ∧ Line.Encode isPrint { X1 := 4, Y1 := 4, X2 := 5, Y2 := 5, Presentation := none }
      = .ok "<line x1=\"4.00\" y1=\"4.00\" x2=\"5.00\" y2=\"5.00\"/>"
    ∧ Line.Encode isPrint { X1 := 4, Y1 := 4, X2 := 5, Y2 := 5, Presentation := none }
      ≠ .ok "<line x1=\"4.00\" y1=\"4.00\" x2=\"5.00\" y2=\"5.00\" />" := by
  have h4 : fixed 2 4 = "4.00" := by decide!
  have h5 : fixed 2 5 = "5.00" := by decide!
  refine ⟨?_, ?_, ?_⟩
  · rw [Line_Encode_none]
    simp only [String.append_assoc]
    rfl
  · rw [Line_Encode_none, h4, h5]
    rfl
  · rw [Line_Encode_none, h4, h5]
    decide

theorem foldl_append_string (l : List String) :
    ∀ acc : String, List.foldl (fun r s => r ++ s) acc l
      = acc ++ List.foldl (fun r s => r ++ s) "" l := by
  induction l with
  | nil => intro acc; simp
  | cons a l ih =>
    intro acc
    rw [List.foldl_cons, List.foldl_cons, ih (acc ++ a), ih ("" ++ a)]
    simp [String.append_assoc]

/-- The concatenation of a list of texts, head first. -/
theorem join_cons (a : String) (l : List String) :
    String.join (a :: l) = a ++ String.join l := by
  unfold String.join
  rw [List.foldl_cons, foldl_append_string l ("" ++ a)]
  simp

/-- The text of `encodeCommands` when every command that is not a close-path
carries a point. -/
theorem encodeCommands_spec (D : List PathCommand)
    (h : ∀ c ∈ D, c.Directive ≠ ClosePath → c.Point ≠ none) :
    ∃ texts : List String,
      List.Forall₂ (fun (c : PathCommand) (t : String) =>
        PathCommand.Encode c = .ok t ∧
        ((c.Directive = ClosePath ∧ t = "Z") ∨
          (c.Directive ≠ ClosePath ∧ ∃ pt, c.Point = some pt ∧
            t = c.Directive ++ fixed 2 pt.X ++ " " ++ fixed 2 pt.Y ++ " "))) D texts ∧
      encodeCommands D = .ok (String.join texts) := by
  induction D with
  | nil => exact ⟨[], List.Forall₂.nil, rfl⟩
  | cons c cs ih =>
    obtain ⟨texts, hall, henc⟩ := ih (fun d hd => h d (List.mem_cons_of_mem _ hd))
    by_cases hc : c.Directive = ClosePath
    · have e : PathCommand.Encode c = .ok "Z" := by simp [PathCommand.Encode, hc]
      refine ⟨"Z" :: texts, List.Forall₂.cons ⟨e, Or.inl ⟨hc, rfl⟩⟩ hall, ?_⟩
      simp [encodeCommands, e, henc, bind, Except.bind, pure, Except.pure, join_cons]
    · obtain ⟨pt, hpt⟩ := Option.ne_none_iff_exists'.mp (h c (List.mem_cons_self _ _) hc)
      have e : PathCommand.Encode c
          = .ok (c.Directive ++ fixed 2 pt.X ++ " " ++ fixed 2 pt.Y ++ " ") := by
        simp [PathCommand.Encode, hc, hpt]
      refine ⟨_ :: texts, List.Forall₂.cons ⟨e, Or.inr ⟨hc, pt, hpt, rfl⟩⟩ hall, ?_⟩
      simp [encodeCommands, e, henc, bind, Except.bind, pure, Except.pure, join_cons]

end Svg

/-! ## Circle, Ellipse and Group: no presentation attribute -/

namespace Svg

theorem digitChar_ne_space (d : Nat) (h : d < 10) : Nat.digitChar d ≠ ' ' := by
  interval_cases d <;> decide

theorem toDigitsCore_ne_space :
    ∀ (fuel n : Nat) (ds : List Char), (∀ c ∈ ds, c ≠ ' ') →
      ∀ c ∈ Nat.toDigitsCore 10 fuel n ds, c ≠ ' ' := by
  intro fuel
  induction fuel with
  | zero => intro n ds h; simpa [Nat.toDigitsCore] using h
  | succ fuel ih =>
    intro n ds h
    have hd : ∀ c ∈ Nat.digitChar (n % 10) :: ds, c ≠ ' ' := by
      intro c hc
      rcases List.mem_cons.mp hc with rfl | hc
      · exact digitChar_ne_space _ (Nat.mod_lt _ (by decide))
      · exact h c hc
    rw [Nat.toDigitsCore]
    split
    · exact hd
    · exact ih _ _ hd

theorem toDigits_ne_space (n : Nat) : ∀ c ∈ Nat.toDigits 10 n, c ≠ ' ' :=
  toDigitsCore_ne_space _ _ [] (by simp)

/-- A number written by `%.2f` or `%f` holds no space. -/
theorem fixedChars_ne_space (prec : Nat) (q : ℚ) : ∀ c ∈ fixedChars prec q, c ≠ ' ' := by
  intro c hc
  simp only [fixedChars, List.mem_append, List.mem_cons, List.mem_replicate] at hc
  rcases hc with (hc | hc) | hc
  · split_ifs at hc
    · simp at hc; subst hc; decide
    · simp at hc
  · exact toDigits_ne_space _ c hc
  · split_ifs at hc
    · simp at hc
    · simp only [List.mem_cons, List.mem_append, List.mem_replicate] at hc
      rcases hc with rfl | ⟨_, rfl⟩ | hc
      · decide
      · decide
      · exact toDigits_ne_space _ c hc

/-- A text that starts with a space does not start inside a run without
spaces. -/
theorem space_infix_skip (rest d l : List Char) (hd : ∀ c ∈ d, c ≠ ' ') :
    (' ' :: rest) <:+: d ++ l ↔ (' ' :: rest) <:+: l := by
  induction d with
  | nil => simp
  | cons c d ih =>
    rw [List.cons_append, List.infix_cons_iff, List.cons_prefix_cons,
      ih (fun x hx => hd x (List.mem_cons_of_mem _ hx))]
    have : ' ' ≠ c := fun e => hd c (List.mem_cons_self _ _) e.symm
    simp [this]

theorem Circle_Encode_data (c : Circle) :
    (Circle.Encode c).data =
      ['<', 'c', 'i', 'r', 'c', 'l', 'e', ' ', 'c', 'x', '=', '"'] ++ (fixedChars 2 c.CX ++
      (['"', ' ', 'c', 'y', '=', '"'] ++ (fixedChars 2 c.CY ++
      (['"', ' ', 'r', '=', '"'] ++ (fixedChars 2 c.R ++ ['"', ' ', '/', '>']))))) := by
  simp [Circle.Encode, fixed]

end Svg

namespace Svg

theorem Ellipse_Encode_data (e : Ellipse) :
    (Ellipse.Encode e).data =
      ['<', 'e', 'l', 'l', 'i', 'p', 's', 'e', ' ', 'c', 'x', '=', '"'] ++ (fixedChars 2 e.CX ++
      (['"', ' ', 'c', 'y', '=', '"'] ++ (fixedChars 2 e.CY ++
      (['"', ' ', 'r', 'x', '=', '"'] ++ (fixedChars 2 e.RX ++
      (['"', ' ', 'r', 'y', '=', '"'] ++ (fixedChars 2 e.RY ++ ['"', ' ', '/', '>']))))))) := by
  simp [Ellipse.Encode, fixed]

theorem Circle_no_presentation_attribute (c : Circle) :
    ∀ name ∈ ["color", "fill", "opacity", "stroke", "stroke-dasharray", "stroke-width"],
      ¬ HasAttribute (Circle.Encode c) name := by
  intro name h
  simp only [List.mem_cons, List.mem_singleton, List.not_mem_nil, or_false] at h
  rcases h with rfl | rfl | rfl | rfl | rfl | rfl <;>
    · rw [HasAttribute, Circle_Encode_data]
      simp [List.infix_cons_iff, space_infix_skip _ _ _ (fixedChars_ne_space _ _)]

theorem Ellipse_no_presentation_attribute (e : Ellipse) :
    ∀ name ∈ ["color", "fill", "opacity", "stroke", "stroke-dasharray", "stroke-width"],
      ¬ HasAttribute (Ellipse.Encode e) name := by
  intro name h
  simp only [List.mem_cons, List.mem_singleton, List.not_mem_nil, or_false] at h
  rcases h with rfl | rfl | rfl | rfl | rfl | rfl <;>
    · rw [HasAttribute, Ellipse_Encode_data]
      simp [List.infix_cons_iff, space_infix_skip _ _ _ (fixedChars_ne_space _ _)]

/-- The children loop on children that all encode. -/
theorem encodeChildren_spec (isPrint : Char → Bool) (children : List Encoder)
    (texts : List String)
    (h : List.Forall₂ (fun (c : Encoder) (t : String) => Encoder.Encode isPrint c = .ok t)
      children texts) :
    encodeChildren isPrint children = .ok (String.join texts) := by
  induction h with
  | nil => rfl
  | cons hc _ ih =>
    simp [encodeChildren, hc, ih, bind, Except.bind, pure, Except.pure, join_cons]

/-- `Group.Encode` in terms of its children loop. -/
theorem Group_Encode_eq (isPrint : Char → Bool) (p : Option Presentation)
    (children : List Encoder) :
    Encoder.Encode isPrint (.group p children)
      = (encodeChildren isPrint children).map (fun body => "<g>" ++ body ++ "</g>") := by
  rw [Encoder.Encode]
  cases encodeChildren isPrint children <;> rfl

/-- `Anchor.Encode` in terms of its children loop. -/
theorem Anchor_Encode_eq (isPrint : Char → Bool) (sh actuate href target : String)
    (children : List Encoder) :
    Encoder.Encode isPrint (.anchor sh actuate href target children)
      = (encodeChildren isPrint children).map (fun body =>
          "<a xlink:show=\"" ++ sh ++ "\" xlink:actuate=\"" ++ actuate
            ++ "\" xlink:href=\"" ++ href ++ "\" xlink:target=\"" ++ target ++ "\">"
            ++ body ++ "</a>") := by
  rw [Encoder.Encode]
  cases encodeChildren isPrint children <;> rfl

end Svg

/-! ## The claims on the encoders -/

namespace Svg

/-- C15: for a path whose commands other than close-path all carry a point,
`Path.Encode` writes `<path d="`, the encodings of the commands in list order,
a double quote, the presentation attributes when a presentation is attached,
and ` />`; a close-path command encodes to `Z` whatever its point is, every
other command to its directive, the two-decimal X, a space, the two-decimal Y
and a space; `[MoveTo (5,5), LineTo (5,10), ClosePath]` encodes to
`<path d="M5.00 5.00 L5.00 10.00 Z" />`. -/
theorem Path_Encode_spec (isPrint : Char → Bool) (p : Path)
    (h : ∀ c ∈ p.D, c.Directive ≠ ClosePath → c.Point ≠ none) :
    (∃ (texts : List String) (pres : String),
      List.Forall₂ (fun (c : PathCommand) (t : String) =>
        PathCommand.Encode c = .ok t ∧
        ((c.Directive = ClosePath ∧ t = "Z") ∨
          (c.Directive ≠ ClosePath ∧ ∃ pt, c.Point = some pt ∧
            t = c.Directive ++ fixed 2 pt.X ++ " " ++ fixed 2 pt.Y ++ " "))) p.D texts ∧
      ((p.Presentation = none ∧ pres = "") ∨
        (∃ q, p.Presentation = some q ∧ Presentation.Encode isPrint (some q) = .ok pres)) ∧
      Path.Encode isPrint p = .ok ("<path d=\"" ++ String.join texts ++ "\"" ++ pres ++ " />")) ∧
    (∀ pt : Option Point, PathCommand.Encode { Directive := ClosePath, Point := pt } = .ok "Z") ∧
    Path.Encode isPrint
        { D := [{ Directive := MoveTo, Point := some { X := 5, Y := 5 } },
                { Directive := LineTo, Point := some { X := 5, Y := 10 } },
                { Directive := ClosePath, Point := none }],
          Presentation := none }
      = .ok "<path d=\"M5.00 5.00 L5.00 10.00 Z\" />" := by
  refine ⟨?_, fun _ => rfl, ?_⟩
  · obtain ⟨texts, hall, henc⟩ := encodeCommands_spec p.D h
    cases hp : p.Presentation with
    | none =>
      refine ⟨texts, "", hall, Or.inl ⟨rfl, rfl⟩, ?_⟩
      simp [Path.Encode, henc, hp, bind, Except.bind, pure, Except.pure]
    | some q =>
      obtain ⟨pres, hpres⟩ : ∃ pres, Presentation.Encode isPrint (some q) = .ok pres :=
        ⟨_, Presentation_Encode_eq isPrint q⟩
      refine ⟨texts, pres, hall, Or.inr ⟨q, rfl, hpres⟩, ?_⟩
      simp [Path.Encode, henc, hp, hpres, bind, Except.bind, pure, Except.pure]
  · have e : Path.Encode isPrint
        { D := [{ Directive := MoveTo, Point := some { X := 5, Y := 5 } },
                { Directive := LineTo, Point := some { X := 5, Y := 10 } },
                { Directive := ClosePath, Point := none }],
          Presentation := none }
        = Path.Encode asciiIsPrint
        { D := [{ Directive := MoveTo, Point := some { X := 5, Y := 5 } },
                { Directive := LineTo, Point := some { X := 5, Y := 10 } },
                { Directive := ClosePath, Point := none }],
          Presentation := none } := rfl
    rw [e]
    decide!

/-- Witness of C15: a path of two commands with a presentation. -/
theorem Path_Encode_spec_witness :
    ∃ (texts : List String) (pres : String),
      List.Forall₂ (fun (c : PathCommand) (t : String) =>
        PathCommand.Encode c = .ok t ∧
        ((c.Directive = ClosePath ∧ t = "Z") ∨
          (c.Directive ≠ ClosePath ∧ ∃ pt, c.Point = some pt ∧
            t = c.Directive ++ fixed 2 pt.X ++ " " ++ fixed 2 pt.Y ++ " ")))
        [{ Directive := MoveTo, Point := some { X := 1, Y := 2 } },
         { Directive := ClosePath, Point := none }] texts ∧
      ((some ({ Stroke := "red" } : Presentation) = none ∧ pres = "") ∨
        (∃ q, some ({ Stroke := "red" } : Presentation) = some q ∧
          Presentation.Encode asciiIsPrint (some q) = .ok pres)) ∧
      Path.Encode asciiIsPrint
          { D := [{ Directive := MoveTo, Point := some { X := 1, Y := 2 } },
                  { Directive := ClosePath, Point := none }],
            Presentation := some { Stroke := "red" } }
        = .ok ("<path d=\"" ++ String.join texts ++ "\"" ++ pres ++ " />") :=
  (Path_Encode_spec asciiIsPrint
    { D := [{ Directive := MoveTo, Point := some { X := 1, Y := 2 } },
            { Directive := ClosePath, Point := none }],
      Presentation := some { Stroke := "red" } } (by decide)).1

/-- C16 (counterexample): a group whose child is a text without a point does
not encode: the child panics on its nil point, and the closing tag of the
group is not written. -/
theorem Group_Encode_child_fails :
    Encoder.Encode asciiIsPrint (.group none [.text { Content := "hi", Point := none }])
      = .error Fault.nilDereference
    ∧ ∀ out : String,
      Encoder.Encode asciiIsPrint (.group none [.text { Content := "hi", Point := none }])
        ≠ .ok out := by
  have h : Encoder.Encode asciiIsPrint (.group none [.text { Content := "hi", Point := none }])
      = .error Fault.nilDereference := by decide!
  refine ⟨h, fun out => ?_⟩
  rw [h]
  exact fun e => by cases e

/-- C16 (amended): for a container and a list of children that all encode,
`Encode` writes the opening tag, the encodings of the children in list order
and the closing tag: `<g>` ... `</g>` for a group, `<a ...>` ... `</a>` for an
anchor, and for a canvas with a presentation the `<svg` element with the
xmlns declaration, two-decimal width and height and the presentation
attributes before the children, closed by `</svg>`; a group holding
`Circle{4.5, 5.4, 6}` encodes to
`<g><circle cx="4.50" cy="5.40" r="6.00" /></g>`. -/
theorem Container_Encode_spec (isPrint : Char → Bool) (children : List Encoder)
    (texts : List String)
    (h : List.Forall₂ (fun (c : Encoder) (t : String) => Encoder.Encode isPrint c = .ok t)
      children texts) :
    (∀ p : Option Presentation,
      Encoder.Encode isPrint (.group p children)
        = .ok ("<g>" ++ String.join texts ++ "</g>")) ∧
    (∀ sh actuate href target : String,
      Encoder.Encode isPrint (.anchor sh actuate href target children)
        = .ok ("<a xlink:show=\"" ++ sh ++ "\" xlink:actuate=\"" ++ actuate
            ++ "\" xlink:href=\"" ++ href ++ "\" xlink:target=\"" ++ target ++ "\">"
            ++ String.join texts ++ "</a>")) ∧
    (∀ (width height : ℚ) (q : Presentation),
      ∃ pres, Presentation.Encode isPrint (some q) = .ok pres ∧
        SVG.Encode isPrint
            { Width := width, Height := height, Children := children, Presentation := some q }
          = .ok ("<svg xmlns=\"http://www.w3.org/2000/svg\" width=\"" ++ fixed 2 width
              ++ "\" height=\"" ++ fixed 2 height ++ "\"" ++ pres ++ " >"
              ++ String.join texts ++ "</svg>")) ∧
    Encoder.Encode isPrint (.group none [.circle { CX := 9 / 2, CY := 27 / 5, R := 6 }])
      = .ok "<g><circle cx=\"4.50\" cy=\"5.40\" r=\"6.00\" /></g>" := by
  have hc := encodeChildren_spec isPrint children texts h
  refine ⟨?_, ?_, ?_, ?_⟩
  · intro p
    rw [Group_Encode_eq, hc]; rfl
  · intro sh actuate href target
    rw [Anchor_Encode_eq, hc]; rfl
  · intro width height q
    refine ⟨_, Presentation_Encode_eq isPrint q, ?_⟩
    simp only [SVG.Encode, Presentation_Encode_eq, hc, bind, Except.bind, pure, Except.pure]
  · have e : Encoder.Encode isPrint (.group none [.circle { CX := 9 / 2, CY := 27 / 5, R := 6 }])
        = Encoder.Encode asciiIsPrint
            (.group none [.circle { CX := 9 / 2, CY := 27 / 5, R := 6 }]) := by
      simp [Encoder.Encode, encodeChildren]
    rw [e]
    decide!

/-- Witness of C16 (amended): a circle and a line as the children. -/
theorem Container_Encode_spec_witness :
    Encoder.Encode asciiIsPrint
        (.group none [.circle { CX := 1, CY := 2, R := 3 },
          .line { X1 := 0, Y1 := 0, X2 := 1, Y2 := 1 }])
      = .ok ("<g>" ++ String.join
          ["<circle cx=\"1.00\" cy=\"2.00\" r=\"3.00\" />",
           "<line x1=\"0.00\" y1=\"0.00\" x2=\"1.00\" y2=\"1.00\"/>"] ++ "</g>") :=
  (Container_Encode_spec asciiIsPrint
    [.circle { CX := 1, CY := 2, R := 3 }, .line { X1 := 0, Y1 := 0, X2 := 1, Y2 := 1 }]
    ["<circle cx=\"1.00\" cy=\"2.00\" r=\"3.00\" />",
     "<line x1=\"0.00\" y1=\"0.00\" x2=\"1.00\" y2=\"1.00\"/>"]
    (List.Forall₂.cons (by decide!) (List.Forall₂.cons (by decide!) List.Forall₂.nil))).1 none

end Svg

namespace Svg

/-- C12 (counterexample): an anchor with four empty fields and an image with an
empty `HRef` still write their xlink attributes, each with the value `""`. -/
theorem Anchor_Image_empty_attributes_written :
    Encoder.Encode asciiIsPrint (.anchor "" "" "" "" [])
      = .ok "<a xlink:show=\"\" xlink:actuate=\"\" xlink:href=\"\" xlink:target=\"\"></a>"
    ∧ HasAttribute "<a xlink:show=\"\" xlink:actuate=\"\" xlink:href=\"\" xlink:target=\"\"></a>"
        "xlink:show"
    ∧ HasAttribute "<a xlink:show=\"\" xlink:actuate=\"\" xlink:href=\"\" xlink:target=\"\"></a>"
        "xlink:actuate"
    ∧ HasAttribute "<a xlink:show=\"\" xlink:actuate=\"\" xlink:href=\"\" xlink:target=\"\"></a>"
        "xlink:href"
    ∧ HasAttribute "<a xlink:show=\"\" xlink:actuate=\"\" xlink:href=\"\" xlink:target=\"\"></a>"
        "xlink:target"
    ∧ Image.Encode { X := 0, Y := 0, Width := 0, Height := 0, HRef := "" }
      = "<image xlink:href=\"\" x=\"0.00\" y=\"0.00\" width=\"0.00\" height=\"0.00\" />"
    ∧ HasAttribute
        "<image xlink:href=\"\" x=\"0.00\" y=\"0.00\" width=\"0.00\" height=\"0.00\" />"
        "xlink:href" := by
  refine ⟨by decide!, by decide!, by decide!, by decide!, by decide!, by decide!, by decide!⟩

/-- A text that stands between two others is part of the whole. -/
theorem hasAttribute_of_eq (out name : String) (pre post : String)
    (h : out = pre ++ (" " ++ name ++ "=") ++ post) : HasAttribute out name := by
  rw [HasAttribute, h]
  exact ⟨pre.data, post.data, by simp⟩

/-- C12 (amended): an empty string field is left out only among the fields of
a presentation: `Presentation.Encode` writes a `name=value` pair for a field
exactly when the field is not empty, and so do `Line.Encode` and
`Path.Encode`, which write the presentation they carry.  `Anchor.Encode`
writes `xlink:show`, `xlink:actuate`, `xlink:href` and `xlink:target` and
`Image.Encode` writes `xlink:href` for every value of the field, the empty
one included. -/
theorem Attribute_omission_spec (isPrint : Char → Bool) :
    (∀ p : Presentation,
      Presentation.Encode isPrint (some p) = .ok
        ((if p.Color = "" then "" else " color=" ++ Quote isPrint p.Color)
          ++ (if p.Fill = "" then "" else " fill=" ++ Quote isPrint p.Fill)
          ++ (if p.Opacity = "" then "" else " opacity=" ++ Quote isPrint p.Opacity)
          ++ (if p.Stroke = "" then "" else " stroke=" ++ Quote isPrint p.Stroke)
          ++ (if p.StrokeDashArray = "" then ""
              else " stroke-dasharray=" ++ Quote isPrint p.StrokeDashArray)
          ++ (if p.StrokeWidth = "" then ""
              else " stroke-width=" ++ Quote isPrint p.StrokeWidth))) ∧
    (∀ (l : Line) (p : Presentation) (pres : String), l.Presentation = some p →
      Presentation.Encode isPrint (some p) = .ok pres →
      Line.Encode isPrint l = .ok ("<line x1=\"" ++ fixed 2 l.X1 ++ "\" y1=\"" ++ fixed 2 l.Y1
        ++ "\" x2=\"" ++ fixed 2 l.X2 ++ "\" y2=\"" ++ fixed 2 l.Y2 ++ "\"" ++ pres ++ "/>")) ∧
    (∀ (sh actuate href target : String) (children : List Encoder) (out : String),
      Encoder.Encode isPrint (.anchor sh actuate href target children) = .ok out →
      (∃ body, encodeChildren isPrint children = .ok body ∧
        out = "<a xlink:show=\"" ++ sh ++ "\" xlink:actuate=\"" ++ actuate
          ++ "\" xlink:href=\"" ++ href ++ "\" xlink:target=\"" ++ target ++ "\">"
          ++ body ++ "</a>") ∧
      HasAttribute out "xlink:show" ∧ HasAttribute out "xlink:actuate" ∧
      HasAttribute out "xlink:href" ∧ HasAttribute out "xlink:target") ∧
    (∀ i : Image,
      Image.Encode i = "<image xlink:href=\"" ++ i.HRef ++ "\" x=\"" ++ fixed 2 i.X
        ++ "\" y=\"" ++ fixed 2 i.Y ++ "\" width=\"" ++ fixed 2 i.Width ++ "\" height=\""
        ++ fixed 2 i.Height ++ "\" />" ∧
      HasAttribute (Image.Encode i) "xlink:href") := by
  refine ⟨Presentation_Encode_eq isPrint, ?_, ?_, ?_⟩
  · intro l p pres hl hp
    simp only [Line.Encode, hl, hp, bind, Except.bind, pure, Except.pure]
  · intro sh actuate href target children out hout
    rw [Anchor_Encode_eq] at hout
    cases hb : encodeChildren isPrint children with
    | error e => rw [hb] at hout; cases hout
    | ok body =>
      rw [hb] at hout
      have hout2 : out = "<a xlink:show=\"" ++ sh ++ "\" xlink:actuate=\"" ++ actuate
          ++ "\" xlink:href=\"" ++ href ++ "\" xlink:target=\"" ++ target ++ "\">"
          ++ body ++ "</a>" := by
        cases hout; rfl
      refine ⟨⟨body, rfl, hout2⟩, ?_, ?_, ?_, ?_⟩
      · apply hasAttribute_of_eq out "xlink:show" "<a"
          ("\"" ++ sh ++ "\" xlink:actuate=\"" ++ actuate
            ++ "\" xlink:href=\"" ++ href ++ "\" xlink:target=\"" ++ target ++ "\">"
            ++ body ++ "</a>")
        rw [hout2]; apply String.ext; simp
      · apply hasAttribute_of_eq out "xlink:actuate" ("<a xlink:show=\"" ++ sh ++ "\"")
          ("\"" ++ actuate
            ++ "\" xlink:href=\"" ++ href ++ "\" xlink:target=\"" ++ target ++ "\">"
            ++ body ++ "</a>")
        rw [hout2]; apply String.ext; simp
      · apply hasAttribute_of_eq out "xlink:href"
          ("<a xlink:show=\"" ++ sh ++ "\" xlink:actuate=\"" ++ actuate ++ "\"")
          ("\"" ++ href ++ "\" xlink:target=\"" ++ target ++ "\">" ++ body ++ "</a>")
        rw [hout2]; apply String.ext; simp
      · apply hasAttribute_of_eq out "xlink:target"
          ("<a xlink:show=\"" ++ sh ++ "\" xlink:actuate=\"" ++ actuate
            ++ "\" xlink:href=\"" ++ href ++ "\"")
          ("\"" ++ target ++ "\">" ++ body ++ "</a>")
        rw [hout2]; apply String.ext; simp
  · intro i
    refine ⟨rfl, ?_⟩
    apply hasAttribute_of_eq _ "xlink:href" "<image"
      ("\"" ++ i.HRef ++ "\" x=\"" ++ fixed 2 i.X
        ++ "\" y=\"" ++ fixed 2 i.Y ++ "\" width=\"" ++ fixed 2 i.Width ++ "\" height=\""
        ++ fixed 2 i.Height ++ "\" />")
    apply String.ext; simp [Image.Encode]

/-- C20: the presentation attached to a circle, an ellipse or a group is not
emitted: two values that differ only in their presentation encode to the same
result, the whole output of a circle or an ellipse holds none of the
attributes color, fill, opacity, stroke, stroke-dasharray, stroke-width, and
the output of a group is the bare tag `<g>`, its children and `</g>`. -/
theorem Presentation_not_emitted (isPrint : Char → Bool) :
    (∀ (p q : Option Presentation) (cx cy r : ℚ),
      Circle.Encode { Presentation := p, CX := cx, CY := cy, R := r }
        = Circle.Encode { Presentation := q, CX := cx, CY := cy, R := r }) ∧
    (∀ (c : Circle),
      Circle.Encode c = "<circle cx=\"" ++ fixed 2 c.CX ++ "\" cy=\"" ++ fixed 2 c.CY
        ++ "\" r=\"" ++ fixed 2 c.R ++ "\" />" ∧
      ∀ name ∈ ["color", "fill", "opacity", "stroke", "stroke-dasharray", "stroke-width"],
        ¬ HasAttribute (Circle.Encode c) name) ∧
    (∀ (p q : Option Presentation) (cx cy rx ry : ℚ),
      Ellipse.Encode { Presentation := p, CX := cx, CY := cy, RX := rx, RY := ry }
        = Ellipse.Encode { Presentation := q, CX := cx, CY := cy, RX := rx, RY := ry }) ∧
    (∀ (e : Ellipse),
      Ellipse.Encode e = "<ellipse cx=\"" ++ fixed 2 e.CX ++ "\" cy=\"" ++ fixed 2 e.CY
        ++ "\" rx=\"" ++ fixed 2 e.RX ++ "\" ry=\"" ++ fixed 2 e.RY ++ "\" />" ∧
      ∀ name ∈ ["color", "fill", "opacity", "stroke", "stroke-dasharray", "stroke-width"],
        ¬ HasAttribute (Ellipse.Encode e) name) ∧
    (∀ (p q : Option Presentation) (children : List Encoder),
      Encoder.Encode isPrint (.group p children)
        = Encoder.Encode isPrint (.group q children)) ∧
    (∀ (p : Option Presentation) (children : List Encoder) (out : String),
      Encoder.Encode isPrint (.group p children) = .ok out →
      ∃ body, encodeChildren isPrint children = .ok body ∧ out = "<g>" ++ body ++ "</g>") := by
  refine ⟨fun _ _ _ _ _ => rfl, fun c => ⟨rfl, Circle_no_presentation_attribute c⟩,
    fun _ _ _ _ _ _ => rfl, fun e => ⟨rfl, Ellipse_no_presentation_attribute e⟩, ?_, ?_⟩
  · intro p q children
    rw [Group_Encode_eq, Group_Encode_eq]
  · intro p children out hout
    rw [Group_Encode_eq] at hout
    cases hb : encodeChildren isPrint children with
    | error e => rw [hb] at hout; cases hout
    | ok body =>
      rw [hb] at hout
      refine ⟨body, rfl, ?_⟩
      cases hout; rfl

end Svg
